import Mathlib

/-!
The go-template renderer: context resolution, detail queries and error location.

A shallow embedding of `renderer/render_model.go` and `renderer/renderer.go`.

* Go pointers that may be `nil` (`*EventDetail`, `*Event`, `*int`) are `Option`s.
* `error` values are carried by their message (`err.Error()`).
* The templating engine, the RFC 3339 time parser and the clock are
  collaborators of the package and are passed in as parameters.
* A JSON payload is taken as the scanner of `encoding/json` reads it: a tree of
  JSON values; the decoders of that package are modelled on such trees.
-/

set_option autoImplicit false

namespace Renderer

/-! ## Data model -/

/-- A `time.Time` instant: nanoseconds elapsed since the zero Time
(January 1, year 1, 00:00:00 UTC).  The location is not modelled. -/
structure Time where
  nanos : Int
deriving DecidableEq, Repr

/-- The zero `time.Time`. -/
def Time.zero : Time := ⟨0⟩

/-- Go `Time.IsZero`. -/
def Time.IsZero (t : Time) : Bool := t.nanos == 0

/-- The values `encoding/json` stores in an `interface{}`, together with the
`time.Time` that `buildContext` puts under `"Now"`.  A `float64` is carried by
the number literal it was converted from (it is the float nearest to it). -/
inductive GoVal where
  | nil
  | bool (b : Bool)
  | float64 (lit : String)
  | string (s : String)
  | slice (xs : List GoVal)
  | map (kvs : List (String × GoVal))
  | time (t : Time)

/-- Go `EventDetail`. -/
structure EventDetail where
  Name : String
  Label : String
  Value : GoVal
  Tag : String

/-- Go `EventDetails`, a `[]*EventDetail`; a `nil` entry is `none`. -/
abbrev EventDetails := List (Option EventDetail)

/-- The loop guard `it != nil && it.Name == name`. -/
def EventDetail.nameIs (it : Option EventDetail) (name : String) : Bool :=
  match it with
  | some e => e.Name == name
  | none => false

/-- Go `EventDetails.Get`: the first entry passing the guard, itself; after
the loop a fresh `&EventDetail{Name: name, Label: name, Value: nil}`. -/
def EventDetails.Get : EventDetails → String → Option EventDetail
  | [], name => some { Name := name, Label := name, Value := GoVal.nil, Tag := "" }
  | it :: rest, name =>
    if EventDetail.nameIs it name then it else EventDetails.Get rest name

/-- Go `EventDetails.GetValue`, `d.Get(name).Value`; `none` stands for the
nil-pointer dereference that a `nil` result of `Get` would cause. -/
def EventDetails.GetValue (d : EventDetails) (name : String) : Option GoVal :=
  (EventDetails.Get d name).map (fun it => it.Value)

/-! ## Error locator -/

/-- Go `RenderResponse`; `Column` is a `*int`. -/
structure RenderResponse where
  Output : String := ""
  Error : String := ""
  Line : Int := 0
  Column : Option Int := none
deriving DecidableEq, Repr

/-- The fragment of the `regexp` syntax that the locator's pattern is written
in: a literal, one character of a class, greedy `*` and `+` over a class,
concatenation, a capturing group and a greedy `(?:a)?`. -/
inductive Regex where
  | lit (l : List Char)
  | cls (p : Char → Bool)
  | star (p : Char → Bool)
  | plus (p : Char → Bool)
  | cat (a b : Regex)
  | group (i : Nat) (a : Regex)
  | opt (a : Regex)

/-- The text captured so far, newest first, by group number. -/
abbrev Caps := List (Nat × List Char)

/-- The remainder of `s` after the literal `l`, when `s` starts with it. -/
def dropLit : List Char → List Char → Option (List Char)
  | [], s => some s
  | _ :: _, [] => none
  | a :: l, c :: s => if a == c then dropLit l s else none

/-- Greedy iteration of a class in a backtracking search: take one more
character when possible and go on; when the rest of the pattern then fails,
give it back and try the rest of the pattern here. -/
def starGreedy {α : Type} (p : Char → Bool) :
    List Char → (List Char → Option α) → Option α
  | [], k => k []
  | c :: cs, k =>
    if p c then
      match starGreedy p cs k with
      | some r => some r
      | none => k (c :: cs)
    else k (c :: cs)

/-- The backtracking search of `regexp` (the leftmost-first match is the one a
backtracking search finds first), in continuation-passing style: `k` is the
rest of the pattern, run on the input that is left and the captures so far. -/
def Regex.run {α : Type} : Regex → List Char → Caps →
    (List Char → Caps → Option α) → Option α
  | Regex.lit l, s, caps, k =>
    match dropLit l s with
    | some rest => k rest caps
    | none => none
  | Regex.cls p, s, caps, k =>
    match s with
    | c :: cs => if p c then k cs caps else none
    | [] => none
  | Regex.star p, s, caps, k => starGreedy p s (fun rest => k rest caps)
  | Regex.plus p, s, caps, k =>
    match s with
    | c :: cs => if p c then starGreedy p cs (fun rest => k rest caps) else none
    | [] => none
  | Regex.cat a b, s, caps, k => Regex.run a s caps (fun s1 c1 => Regex.run b s1 c1 k)
  | Regex.group i a, s, caps, k =>
    Regex.run a s caps (fun s1 c1 => k s1 ((i, s.take (s.length - s1.length)) :: c1))
  | Regex.opt a, s, caps, k =>
    match Regex.run a s caps k with
    | some r => some r
    | none => k s caps

/-- A match starting at the head of `s`: the matched text and the captures. -/
def Regex.matchHere (re : Regex) (s : List Char) : Option (List Char × Caps) :=
  Regex.run re s [] (fun rest caps => some (s.take (s.length - rest.length), caps))

/-- The leftmost match: the first start position at which the pattern matches. -/
def Regex.find (re : Regex) : List Char → Option (List Char × Caps)
  | [] => Regex.matchHere re []
  | c :: cs =>
    match Regex.matchHere re (c :: cs) with
    | some r => some r
    | none => Regex.find re cs

/-- The text of group `i`; the empty string when the group took no part. -/
def capture (caps : Caps) (i : Nat) : String :=
  match caps.lookup i with
  | some l => String.mk l
  | none => ""

/-- Go `(*Regexp).FindStringSubmatch` for a pattern with `n` groups: `nil`
without a match, else the match followed by the text of groups `1..n`. -/
def Regex.FindStringSubmatch (re : Regex) (n : Nat) (s : String) : List String :=
  match Regex.find re s.toList with
  | none => []
  | some (whole, caps) => String.mk whole :: (List.range n).map (fun i => capture caps (i + 1))

/-- The class `\s` of `regexp`: `[\t\n\f\r ]`. -/
def isSpace (c : Char) : Bool :=
  c == '\t' || c == '\n' || c == Char.ofNat 12 || c == '\r' || c == ' '

/-- The class `[^:]`. -/
def notColon (c : Char) : Bool := c != ':'

/-- The class `:`. -/
def isColon (c : Char) : Bool := c == ':'

/-- The class `\d` of `regexp`: `[0-9]`. -/
def isDigit (c : Char) : Bool := '0' ≤ c && c ≤ '9'

/-- The last part of the locator's pattern, `(?::(\d+))?`. -/
def columnPart : Regex :=
  Regex.opt (Regex.cat (Regex.cls isColon) (Regex.group 2 (Regex.plus isDigit)))

/-- The part `:(\d+)(?::(\d+))?` of the locator's pattern. -/
def positionPart : Regex :=
  Regex.cat (Regex.cls isColon) (Regex.cat (Regex.group 1 (Regex.plus isDigit)) columnPart)

/-- The part `[^:]+:(\d+)(?::(\d+))?` of the locator's pattern. -/
def namePart : Regex :=
  Regex.cat (Regex.plus notColon) positionPart

/-- The locator's pattern, `template:\s*[^:]+:(\d+)(?::(\d+))?`. -/
def linePattern : Regex :=
  Regex.cat (Regex.lit "template:".toList) (Regex.cat (Regex.star isSpace) namePart)

/-- The optional column part `(?::(\d+))?` in closed form: the input left and
the captures after it, on input `s` with captures `caps`. -/
def optForm (s : List Char) (caps : Caps) : List Char × Caps :=
  match s with
  | c :: d :: ds =>
    if isColon c && isDigit d then
      (ds.dropWhile isDigit, (2, d :: ds.takeWhile isDigit) :: caps)
    else (s, caps)
  | _ => (s, caps)

/-- The part `\s*[^:]+` followed by a rest `g` of the pattern that needs a
colon next, in closed form: the whole run of non-colon characters is taken. -/
def nameForm {α : Type} (g : List Char → Option α) (s : List Char) : Option α :=
  match s with
  | c :: cs => if notColon c then g (cs.dropWhile notColon) else none
  | [] => none

/-- The part `:(\d+)(?::(\d+))?` in closed form. -/
def positionForm (s : List Char) : Option (List Char × Caps) :=
  match s with
  | c :: d :: ds =>
    if isColon c && isDigit d then
      some (optForm (ds.dropWhile isDigit) [(1, d :: ds.takeWhile isDigit)])
    else none
  | _ => none

/-- What the search for the locator's pattern finds at the head of `s`, in
closed form: the input left after the match, and the captures. -/
def lineForm (s : List Char) : Option (List Char × Caps) :=
  match dropLit "template:".toList s with
  | some rest => nameForm positionForm rest
  | none => none

/-- Whether the text `l` occurs in `s`: whether some suffix of `s` starts with
it. -/
def occursIn (l : List Char) : List Char → Bool
  | [] => (dropLit l []).isSome
  | c :: cs => (dropLit l (c :: cs)).isSome || occursIn l cs

/-- The number a string of decimal digits denotes. -/
def decimalValue (ds : List Char) : Nat :=
  ds.foldl (fun n ch => n * 10 + (ch.toNat - '0'.toNat)) 0

/-- Go `strconv.Atoi` with a 64-bit `int`: the value and whether an error is
returned.  A syntax error gives 0, a value out of range the nearest bound. -/
def Atoi (s : String) : Int × Bool :=
  let cs := s.toList
  let neg := cs.head? == some '-'
  let ds := if cs.head? == some '-' || cs.head? == some '+' then cs.tail else cs
  if ds.isEmpty || !ds.all isDigit then (0, true)
  else
    let n := decimalValue ds
    if neg then
      if n > 2 ^ 63 then (-(2 ^ 63), true) else (-(n : Int), false)
    else
      if n ≥ 2 ^ 63 then (2 ^ 63 - 1, true) else ((n : Int), false)

/-- Go `extractLineColumn`. -/
def extractLineColumn (errMsg : String) : Int × Int :=
  let «matches» := Regex.FindStringSubmatch linePattern 2 errMsg
  if «matches».length > 1 then
    let line := (Atoi («matches».getD 1 "")).1
    let col :=
      if «matches».length > 2 && «matches».getD 2 "" != "" then (Atoi («matches».getD 2 "")).1
      else 0
    (line, col)
  else (0, 0)

/-- Go `renderErr`, on the error's message. -/
def renderErr (errMsg : String) : RenderResponse :=
  let lc := extractLineColumn errMsg
  let colPtr : Option Int := if lc.2 > 0 then some lc.2 else none
  { Error := errMsg, Line := lc.1, Column := colPtr }

/-! ## JSON payloads and their decoding -/

/-- A JSON text as the scanner of `encoding/json` reads it.  A number is
carried by its literal, a string by its unquoted content, an object by its
members in the order written (names may repeat). -/
inductive JVal where
  | null
  | bool (b : Bool)
  | num (lit : String)
  | str (s : String)
  | arr (xs : List JVal)
  | obj (kvs : List (String × JVal))

/-- A raw payload (`json.RawMessage`), by what the scanner makes of its bytes:
no bytes at all; bytes from whose start no JSON value can be read (`err` is
the message of the syntax error `json.Unmarshal` returns); or a JSON value,
possibly followed by further non-space bytes (`trailing` is then the message
of the syntax error `json.Unmarshal` returns for them). -/
inductive RawMessage where
  | empty
  | invalid (err : String)
  | value (v : JVal) (trailing : Option String)

/-- Go `len(data) > 0`. -/
def RawMessage.nonEmpty : RawMessage → Bool
  | RawMessage.empty => false
  | _ => true

/-- The errors of `encoding/json` that reach the caller: a `*SyntaxError`
with its message, and an `*UnmarshalTypeError` with its `Value` and `Type`. -/
inductive JsonError where
  | syntaxErr (msg : String)
  | unmarshalType (value : String) (goType : String)
deriving DecidableEq, Repr

/-- Go `err.Error()` for these errors. -/
def JsonError.Error : JsonError → String
  | JsonError.syntaxErr msg => msg
  | JsonError.unmarshalType value goType =>
    "json: cannot unmarshal " ++ value ++ " into Go value of type " ++ goType

/-- A Go `map[string]interface{}` that is not nil. -/
abbrev GoMap := List (String × GoVal)

/-- Go `_, ok := m[k]`. -/
def GoMap.has (m : GoMap) (k : String) : Bool := (m.lookup k).isSome

/-- Go `m[k] = v` on a map that is not nil. -/
def GoMap.set : GoMap → String → GoVal → GoMap
  | [], k, v => [(k, v)]
  | (k1, v1) :: rest, k, v =>
    if k1 == k then (k, v) :: rest else (k1, v1) :: GoMap.set rest k v

/-- The largest magnitude that rounds to a finite `float64`, exclusive:
`2^1024 - 2^970`, half an ulp above `math.MaxFloat64`. -/
def float64Limit : Nat := 2 ^ 1024 - 2 ^ 970

/-- Whether `strconv.ParseFloat(lit, 64)` on a JSON number literal
`[-]int[.frac][(e|E)[+|-]exp]` returns no range error. -/
def float64Fits (lit : String) : Bool :=
  let cs := lit.toList
  let cs := if cs.head? == some '-' then cs.tail else cs
  let intDigits := cs.takeWhile isDigit
  let r1 := cs.dropWhile isDigit
  let fracDigits := if r1.head? == some '.' then r1.tail.takeWhile isDigit else []
  let r2 := if r1.head? == some '.' then r1.tail.dropWhile isDigit else r1
  let r3 := r2.tail
  let expNeg := r3.head? == some '-'
  let expDigits := if r3.head? == some '-' || r3.head? == some '+' then r3.tail else r3
  let e : Int := if r2.isEmpty then 0
    else if expNeg then -(decimalValue expDigits : Int) else (decimalValue expDigits : Int)
  let m := decimalValue (intDigits ++ fracDigits)
  let e10 : Int := e - (fracDigits.length : Int)
  if e10 ≥ 0 then m * 10 ^ e10.toNat < float64Limit
  else m < float64Limit * 10 ^ (-e10).toNat

mutual
/-- What `encoding/json` stores in an `interface{}` for a JSON value
(`valueInterface`); a number out of the range of `float64` is an error. -/
def toInterface : JVal → Except JsonError GoVal
  | JVal.null => Except.ok GoVal.nil
  | JVal.bool b => Except.ok (GoVal.bool b)
  | JVal.num lit =>
    if float64Fits lit then Except.ok (GoVal.float64 lit)
    else Except.error (JsonError.unmarshalType ("number " ++ lit) "float64")
  | JVal.str s => Except.ok (GoVal.string s)
  | JVal.arr xs =>
    match toInterfaceList xs with
    | Except.ok ys => Except.ok (GoVal.slice ys)
    | Except.error e => Except.error e
  | JVal.obj kvs =>
    match toInterfaceMembers kvs [] with
    | Except.ok m => Except.ok (GoVal.map m)
    | Except.error e => Except.error e
/-- The elements of an array, in order. -/
def toInterfaceList : List JVal → Except JsonError (List GoVal)
  | [] => Except.ok []
  | x :: xs =>
    match toInterface x with
    | Except.ok y =>
      match toInterfaceList xs with
      | Except.ok ys => Except.ok (y :: ys)
      | Except.error e => Except.error e
    | Except.error e => Except.error e
/-- The members of an object, stored into the map `m` in order. -/
def toInterfaceMembers : List (String × JVal) → GoMap → Except JsonError GoMap
  | [], m => Except.ok m
  | (k, x) :: kvs, m =>
    match toInterface x with
    | Except.ok y => toInterfaceMembers kvs (GoMap.set m k y)
    | Except.error e => Except.error e
end

mutual
/-- Whether every number literal in a JSON value is in the range of `float64`. -/
def numbersFit : JVal → Bool
  | JVal.num lit => float64Fits lit
  | JVal.arr xs => numbersFitList xs
  | JVal.obj kvs => numbersFitMembers kvs
  | _ => true
/-- The same for the elements of an array. -/
def numbersFitList : List JVal → Bool
  | [] => true
  | x :: xs => numbersFit x && numbersFitList xs
/-- The same for the members of an object. -/
def numbersFitMembers : List (String × JVal) → Bool
  | [] => true
  | (_, x) :: kvs => numbersFit x && numbersFitMembers kvs
end

/-- Go `json.Unmarshal(data, &generic)` for a `generic` map that is not nil:
the map afterwards (`none` is the nil map that JSON `null` leaves), or the
error. -/
def unmarshalMap (data : RawMessage) (m : GoMap) : Except JsonError (Option GoMap) :=
  match data with
  | RawMessage.empty => Except.error (JsonError.syntaxErr "unexpected end of JSON input")
  | RawMessage.invalid err => Except.error (JsonError.syntaxErr err)
  | RawMessage.value _ (some err) => Except.error (JsonError.syntaxErr err)
  | RawMessage.value v none =>
    match v with
    | JVal.null => Except.ok none
    | JVal.obj kvs =>
      match toInterfaceMembers kvs m with
      | Except.ok m1 => Except.ok (some m1)
      | Except.error e => Except.error e
    | JVal.bool _ => Except.error (JsonError.unmarshalType "bool" "map[string]interface \x7b\x7d")
    | JVal.num _ => Except.error (JsonError.unmarshalType "number" "map[string]interface \x7b\x7d")
    | JVal.str _ => Except.error (JsonError.unmarshalType "string" "map[string]interface \x7b\x7d")
    | JVal.arr _ => Except.error (JsonError.unmarshalType "array" "map[string]interface \x7b\x7d")

/-! ## The typed context and its strict decoding -/

/-- Go `Event`.  A nil `Details` and an empty one are both `[]`. -/
structure Event where
  «Type» : String := ""
  Description : String := ""
  IsActive : Bool := false
  StartTime : String := ""
  EndTime : String := ""
  CurrentState : String := ""
  PreviousState : String := ""
  Importance : Int := 0
  Details : EventDetails := []

/-- Go `NotificationContext`.  `Events` is a `[]*Event`; a nil slice and an
empty one are both `[]`. -/
structure NotificationContext where
  Events : List (Option Event) := []
  CompanyID : Int := 0
  CompanyName : String := ""
  Now : Time := Time.zero

/-- Case folding of a rune as far as it matters for matching a key against
an ASCII field name: ASCII letters, and the two other runes that fold to one
(U+017F to `S`, U+212A to `K`). -/
def foldRune (c : Char) : Char :=
  if 'a' ≤ c ∧ c ≤ 'z' then Char.ofNat (c.toNat - 32)
  else if c = Char.ofNat 0x17F then 'S'
  else if c = Char.ofNat 0x212A then 'K'
  else c

/-- Whether a key matches a field name without regard to case. -/
def equalFold (field key : String) : Bool :=
  field.toList.map foldRune == key.toList.map foldRune

/-- The field that `encoding/json` decodes a key into: the one with exactly
this JSON name, else the first whose name matches without regard to case. -/
def lookupField {F : Type} (fields : List (String × F)) (key : String) : Option F :=
  match fields.find? (fun f => f.1 == key) with
  | some f => some f.2
  | none => (fields.find? (fun f => equalFold f.1 key)).map (fun f => f.2)

/-- The fields of `EventDetail`. -/
inductive DetailField where
  | Name | Label | Value | Tag
deriving DecidableEq, Repr

/-- The JSON names of the fields of `EventDetail`. -/
def detailFields : List (String × DetailField) :=
  [("Name", DetailField.Name), ("Label", DetailField.Label),
   ("Value", DetailField.Value), ("Tag", DetailField.Tag)]

/-- The fields of the struct that `Event.UnmarshalJSON` decodes into: those
promoted from the embedded `*Alias` (its `Details` is tagged `json:"-"`), and
the `Details` of the struct itself. -/
inductive EventField where
  | «Type» | Description | IsActive | StartTime | EndTime | CurrentState | PreviousState
  | Importance | Details
deriving DecidableEq, Repr

/-- The JSON names of the fields `Event.UnmarshalJSON` decodes into. -/
def eventFields : List (String × EventField) :=
  [("Type", EventField.«Type»), ("Description", EventField.Description),
   ("IsActive", EventField.IsActive), ("StartTime", EventField.StartTime),
   ("EndTime", EventField.EndTime), ("CurrentState", EventField.CurrentState),
   ("PreviousState", EventField.PreviousState), ("Importance", EventField.Importance),
   ("Details", EventField.Details)]

/-- The fields of `NotificationContext`. -/
inductive ContextField where
  | Events | CompanyID | CompanyName | Now
deriving DecidableEq, Repr

/-- The JSON names of the fields of `NotificationContext`. -/
def contextFields : List (String × ContextField) :=
  [("Events", ContextField.Events), ("CompanyID", ContextField.CompanyID),
   ("CompanyName", ContextField.CompanyName), ("Now", ContextField.Now)]

/-- Decoding into a `string` that holds `cur`: `null` leaves it, a string
sets it, anything else is an error. -/
def decodeString (v : JVal) (cur : String) : Option String :=
  match v with
  | JVal.null => some cur
  | JVal.str s => some s
  | _ => none

/-- Decoding into a `bool` that holds `cur`. -/
def decodeBool (v : JVal) (cur : Bool) : Option Bool :=
  match v with
  | JVal.null => some cur
  | JVal.bool b => some b
  | _ => none

/-- Decoding into an `int` that holds `cur`: the literal has to parse as an
integer of 64 bits. -/
def decodeInt (v : JVal) (cur : Int) : Option Int :=
  match v with
  | JVal.null => some cur
  | JVal.num lit => if (Atoi lit).2 then none else some (Atoi lit).1
  | _ => none

/-- Decoding into an `interface{}`: whatever it held is replaced. -/
def decodeInterface (v : JVal) : Option GoVal :=
  match toInterface v with
  | Except.ok g => some g
  | Except.error _ => none

/-- Go `Time.UnmarshalJSON` on a `time.Time` that holds `cur`: `null` leaves
it, a string is parsed as RFC 3339 by `parseTime` (from its content; escape
sequences are not told apart from the characters they stand for), anything
else is an error. -/
def decodeTime (parseTime : String → Option Time) (v : JVal) (cur : Time) : Option Time :=
  match v with
  | JVal.null => some cur
  | JVal.str s => parseTime s
  | _ => none

/-- The members of an object decoded into an `EventDetail`, in order; a key
that matches no field is skipped. -/
def decodeDetailMembers : List (String × JVal) → EventDetail → Option EventDetail
  | [], cur => some cur
  | (k, v) :: rest, cur =>
    match lookupField detailFields k with
    | none => decodeDetailMembers rest cur
    | some DetailField.Name =>
      (decodeString v cur.Name).bind (fun x => decodeDetailMembers rest { cur with Name := x })
    | some DetailField.Label =>
      (decodeString v cur.Label).bind (fun x => decodeDetailMembers rest { cur with Label := x })
    | some DetailField.Value =>
      (decodeInterface v).bind (fun x => decodeDetailMembers rest { cur with Value := x })
    | some DetailField.Tag =>
      (decodeString v cur.Tag).bind (fun x => decodeDetailMembers rest { cur with Tag := x })

/-- Decoding into an element of a `[]*EventDetail` that holds `cur`: `null`
makes it nil, an object is decoded into the detail it points to (a new one
when it is nil), anything else is an error. -/
def decodeDetailPtr (v : JVal) (cur : Option EventDetail) : Option (Option EventDetail) :=
  match v with
  | JVal.null => some none
  | JVal.obj kvs =>
    (decodeDetailMembers kvs (cur.getD { Name := "", Label := "", Value := GoVal.nil, Tag := "" })).map
      some
  | _ => none

/-- The elements of an array decoded into a `[]*EventDetail` that holds `cur`:
element `i` goes into the element `i` already there, or into a new one.  (A
slice holds elements only when a key is repeated in an object; what the
backing array holds beyond the length of the slice is taken as nil.) -/
def decodeDetailElems : List JVal → EventDetails → Option EventDetails
  | [], _ => some []
  | x :: xs, cur =>
    match decodeDetailPtr x (cur.head?.getD none) with
    | some y => (decodeDetailElems xs cur.tail).map (fun ys => y :: ys)
    | none => none

/-- Decoding into an `EventDetails` that holds `cur`. -/
def decodeDetails (v : JVal) (cur : EventDetails) : Option EventDetails :=
  match v with
  | JVal.null => some []
  | JVal.arr xs => decodeDetailElems xs cur
  | _ => none

/-- The members of an object decoded by `json.Unmarshal(b, &aux)` in
`Event.UnmarshalJSON`: `e` is the event behind `aux.Alias`, `details` is
`aux.Details`.  There is no check for unknown fields here: a key that matches
no field is skipped. -/
def decodeEventMembers : List (String × JVal) → Event → EventDetails →
    Option (Event × EventDetails)
  | [], e, details => some (e, details)
  | (k, v) :: rest, e, details =>
    match lookupField eventFields k with
    | none => decodeEventMembers rest e details
    | some EventField.«Type» =>
      (decodeString v e.«Type»).bind (fun x => decodeEventMembers rest { e with «Type» := x } details)
    | some EventField.Description =>
      (decodeString v e.Description).bind
        (fun x => decodeEventMembers rest { e with Description := x } details)
    | some EventField.IsActive =>
      (decodeBool v e.IsActive).bind
        (fun x => decodeEventMembers rest { e with IsActive := x } details)
    | some EventField.StartTime =>
      (decodeString v e.StartTime).bind
        (fun x => decodeEventMembers rest { e with StartTime := x } details)
    | some EventField.EndTime =>
      (decodeString v e.EndTime).bind
        (fun x => decodeEventMembers rest { e with EndTime := x } details)
    | some EventField.CurrentState =>
      (decodeString v e.CurrentState).bind
        (fun x => decodeEventMembers rest { e with CurrentState := x } details)
    | some EventField.PreviousState =>
      (decodeString v e.PreviousState).bind
        (fun x => decodeEventMembers rest { e with PreviousState := x } details)
    | some EventField.Importance =>
      (decodeInt v e.Importance).bind
        (fun x => decodeEventMembers rest { e with Importance := x } details)
    | some EventField.Details =>
      (decodeDetails v details).bind (fun x => decodeEventMembers rest e x)

/-- Go `Event.UnmarshalJSON` on the event `e` with the JSON value `b`: decode
into `aux` (an alias of `e` and a fresh `Details`) with `json.Unmarshal`, then
`e.Details = aux.Details`. -/
def Event.UnmarshalJSON (e : Event) (b : JVal) : Option Event :=
  match b with
  | JVal.null => some { e with Details := [] }
  | JVal.obj kvs =>
    (decodeEventMembers kvs e []).map (fun r => { r.1 with Details := r.2 })
  | _ => none

/-- Decoding into an element of a `[]*Event` that holds `cur`: `null` makes it
nil, any other value is handed to `UnmarshalJSON` of the event it points to
(a new one when it is nil). -/
def decodeEventPtr (v : JVal) (cur : Option Event) : Option (Option Event) :=
  match v with
  | JVal.null => some none
  | _ => (Event.UnmarshalJSON (cur.getD {}) v).map some

/-- The elements of an array decoded into a `[]*Event` that holds `cur`. -/
def decodeEventElems : List JVal → List (Option Event) → Option (List (Option Event))
  | [], _ => some []
  | x :: xs, cur =>
    match decodeEventPtr x (cur.head?.getD none) with
    | some y => (decodeEventElems xs cur.tail).map (fun ys => y :: ys)
    | none => none

/-- Decoding into a `[]*Event` that holds `cur`. -/
def decodeEvents (v : JVal) (cur : List (Option Event)) : Option (List (Option Event)) :=
  match v with
  | JVal.null => some []
  | JVal.arr xs => decodeEventElems xs cur
  | _ => none

/-- The members of an object decoded into a `NotificationContext` by a decoder
with `DisallowUnknownFields`: a key that matches no field is an error. -/
def decodeContextMembers (parseTime : String → Option Time) :
    List (String × JVal) → NotificationContext → Option NotificationContext
  | [], ctx => some ctx
  | (k, v) :: rest, ctx =>
    match lookupField contextFields k with
    | none => none
    | some ContextField.Events =>
      (decodeEvents v ctx.Events).bind
        (fun x => decodeContextMembers parseTime rest { ctx with Events := x })
    | some ContextField.CompanyID =>
      (decodeInt v ctx.CompanyID).bind
        (fun x => decodeContextMembers parseTime rest { ctx with CompanyID := x })
    | some ContextField.CompanyName =>
      (decodeString v ctx.CompanyName).bind
        (fun x => decodeContextMembers parseTime rest { ctx with CompanyName := x })
    | some ContextField.Now =>
      (decodeTime parseTime v ctx.Now).bind
        (fun x => decodeContextMembers parseTime rest { ctx with Now := x })

/-- The strict decode of `buildContext`: `dec.Decode(&ctx)` on a new decoder
over the payload with `DisallowUnknownFields`, for a zero `ctx`.  The decoder
reads the first JSON value of the payload and nothing after it; `none` is an
error. -/
def decodeStrict (parseTime : String → Option Time) (data : RawMessage) :
    Option NotificationContext :=
  match data with
  | RawMessage.empty => none
  | RawMessage.invalid _ => none
  | RawMessage.value v _ =>
    match v with
    | JVal.null => some {}
    | JVal.obj kvs => decodeContextMembers parseTime kvs {}
    | _ => none

/-! ## Context resolver and render orchestrator -/

/-- The context handed to the templating engine, an `interface{}`: a
`*NotificationContext`, a `map[string]interface{}`, or nil. -/
inductive Context where
  | typed (ctx : NotificationContext)
  | generic (m : GoMap)
  | nil

/-- The collaborators of the package.  `Parse name text` is
`template.New(name).Funcs(TextTemplateFuncMap).Parse(text)` and `Execute` is
`tmpl.Execute(&buf, ctx)` followed by `buf.String()`, both with the message of
the error they may return; `ParseTime` is the RFC 3339 parser behind
`Time.UnmarshalJSON`; `Now k` is what the `k`-th evaluation of
`time.Now().UTC()` in a call returns. -/
structure Env (Tmpl : Type) where
  Parse : String → String → Except String Tmpl
  Execute : Tmpl → Context → Except String String
  ParseTime : String → Option Time
  Now : Nat → Time

/-- Go `buildContext`: the context, whether it is the typed one, and the
error.  `none` stands for the run-time panic of a write to a nil map. -/
def buildContext {Tmpl : Type} (env : Env Tmpl) (data : RawMessage) :
    Option (Context × Bool × Option JsonError) :=
  match decodeStrict env.ParseTime data with
  | some ctx =>
    let ctx := if ctx.Now.IsZero then { ctx with Now := env.Now 0 } else ctx
    some (Context.typed ctx, true, none)
  | none =>
    let generic : GoMap := [("Now", GoVal.time (env.Now 0))]
    let decoded : Except JsonError (Option GoMap) :=
      if data.nonEmpty then unmarshalMap data generic else Except.ok (some generic)
    match decoded with
    | Except.error err => some (Context.nil, false, some err)
    | Except.ok none => none
    | Except.ok (some generic) =>
      if !generic.has "Now" then
        some (Context.generic (generic.set "Now" (GoVal.time (env.Now 1))), false, none)
      else some (Context.generic generic, false, none)

/-- Go `RenderRequest`. -/
structure RenderRequest where
  Template : String
  Data : RawMessage

/-- Go `RenderEmailRequest`. -/
structure RenderEmailRequest where
  SubjectTemplate : String
  BodyTemplate : String
  Data : RawMessage

/-- Go `RenderEmailResponse`. -/
structure RenderEmailResponse where
  SubjectOutput : String := ""
  BodyOutput : String := ""
  SubjectError : String := ""
  BodyError : String := ""
  SubjectLine : Int := 0
  BodyLine : Int := 0
  SubjectColumn : Option Int := none
  BodyColumn : Option Int := none
deriving DecidableEq, Repr

/-- Go `Render`; `none` stands for a panic inside `buildContext`. -/
def Render {Tmpl : Type} (env : Env Tmpl) (req : RenderRequest) : Option RenderResponse :=
  match env.Parse "template" req.Template with
  | Except.error err => some (renderErr err)
  | Except.ok tmpl =>
    match buildContext env req.Data with
    | none => none
    | some (_, _, some parseErr) =>
      some { Error := "Data parse error: " ++ parseErr.Error }
    | some (ctx, _, none) =>
      match env.Execute tmpl ctx with
      | Except.error err => some (renderErr err)
      | Except.ok out => some { Output := out }

/-- Go `RenderEmail`; `none` stands for a panic inside `buildContext`. -/
def RenderEmail {Tmpl : Type} (env : Env Tmpl) (req : RenderEmailRequest) :
    Option RenderEmailResponse :=
  match env.Parse "subject" req.SubjectTemplate with
  | Except.error err =>
    let r := renderErr err
    some { SubjectError := r.Error, SubjectLine := r.Line, SubjectColumn := r.Column }
  | Except.ok subjectTmpl =>
    match env.Parse "body" req.BodyTemplate with
    | Except.error err =>
      let r := renderErr err
      some { BodyError := r.Error, BodyLine := r.Line, BodyColumn := r.Column }
    | Except.ok bodyTmpl =>
      match buildContext env req.Data with
      | none => none
      | some (_, _, some parseErr) =>
        let msg := "Data parse error: " ++ parseErr.Error
        some { SubjectError := msg, BodyError := msg }
      | some (ctx, _, none) =>
        match env.Execute subjectTmpl ctx with
        | Except.error err =>
          let r := renderErr err
          some { SubjectError := r.Error, SubjectLine := r.Line, SubjectColumn := r.Column }
        | Except.ok subjectOut =>
          match env.Execute bodyTmpl ctx with
          | Except.error err =>
            let r := renderErr err
            some { BodyError := r.Error, BodyLine := r.Line, BodyColumn := r.Column }
          | Except.ok bodyOut =>
            some { SubjectOutput := subjectOut, BodyOutput := bodyOut }

/-! ## EventDetails query surface -/

/-- The loop guard `it != nil && it.Tag == tag`. -/
def EventDetail.tagIs (it : Option EventDetail) (tag : String) : Bool :=
  match it with
  | some e => e.Tag == tag
  | none => false

/-- The loop of `ToMap`: an entry that is nil or has an empty Name is passed
over, any other is stored with `out[it.Name] = it.Value`. -/
def EventDetails.ToMap.loop : EventDetails → GoMap → GoMap
  | [], out => out
  | it :: rest, out =>
    match it with
    | none => EventDetails.ToMap.loop rest out
    | some e =>
      if e.Name == "" then EventDetails.ToMap.loop rest out
      else EventDetails.ToMap.loop rest (GoMap.set out e.Name e.Value)

/-- Go `EventDetails.ToMap`. -/
def EventDetails.ToMap (d : EventDetails) : GoMap :=
  EventDetails.ToMap.loop d []

/-- The loop of `WithTag`: `out = append(out, it)` for the entries passing the
guard. -/
def EventDetails.WithTag.loop : EventDetails → String → EventDetails → EventDetails
  | [], _, out => out
  | it :: rest, tag, out =>
    if EventDetail.tagIs it tag then EventDetails.WithTag.loop rest tag (out ++ [it])
    else EventDetails.WithTag.loop rest tag out

/-- Go `EventDetails.WithTag`. -/
def EventDetails.WithTag (d : EventDetails) (tag : String) : EventDetails :=
  EventDetails.WithTag.loop d tag []

/-- The loop of `General`, with the guard `it != nil && it.Tag == ""`. -/
def EventDetails.General.loop : EventDetails → EventDetails → EventDetails
  | [], out => out
  | it :: rest, out =>
    if EventDetail.tagIs it "" then EventDetails.General.loop rest (out ++ [it])
    else EventDetails.General.loop rest out

/-- Go `EventDetails.General`. -/
def EventDetails.General (d : EventDetails) : EventDetails :=
  EventDetails.General.loop d []

/-- A Go `map[string]struct{}`: its keys, each held once. -/
abbrev GoSet := List String

/-- Go `want[n] = struct{}{}`. -/
def GoSet.add (want : GoSet) (n : String) : GoSet :=
  if want.contains n then want else want ++ [n]

/-- Go `_, ok := want[n]`. -/
def GoSet.has (want : GoSet) (n : String) : Bool := want.contains n

/-- The first loop of `WithNames`, which fills `want` with the names. -/
def EventDetails.WithNames.want : List String → GoSet → GoSet
  | [], want => want
  | n :: names, want => EventDetails.WithNames.want names (GoSet.add want n)

/-- The second loop of `WithNames`: a nil entry is passed over, an entry whose
Name is in `want` is appended. -/
def EventDetails.WithNames.loop : EventDetails → GoSet → EventDetails → EventDetails
  | [], _, out => out
  | it :: rest, want, out =>
    match it with
    | none => EventDetails.WithNames.loop rest want out
    | some e =>
      if GoSet.has want e.Name then EventDetails.WithNames.loop rest want (out ++ [some e])
      else EventDetails.WithNames.loop rest want out

/-- Go `EventDetails.WithNames`, on the variadic `names`. -/
def EventDetails.WithNames (d : EventDetails) (names : List String) : EventDetails :=
  EventDetails.WithNames.loop d (EventDetails.WithNames.want names []) []

/-- Go `EventDetails.Has`. -/
def EventDetails.Has : EventDetails → String → Bool
  | [], _ => false
  | it :: rest, name => if EventDetail.nameIs it name then true else EventDetails.Has rest name

/-- Go `EventDetails.HasTag`. -/
def EventDetails.HasTag : EventDetails → String → Bool
  | [], _ => false
  | it :: rest, tag => if EventDetail.tagIs it tag then true else EventDetails.HasTag rest tag

/-- Go `EventDetail.LabelOrName`, on a receiver that may be nil. -/
def EventDetail.LabelOrName (it : Option EventDetail) : String :=
  match it with
  | none => ""
  | some e => if e.Label != "" then e.Label else e.Name

/-- The guard of the second loop of `WithNames` as one test: the entry is not
nil and its Name is among `names`. -/
def EventDetail.nameIn (it : Option EventDetail) (names : List String) : Bool :=
  match it with
  | some e => names.contains e.Name
  | none => false

/-! ## A small environment for the examples -/

/-- A compiled template of the example engine: its name and its text. -/
abbrev SampleTmpl := String × String

/-- The example engine's parser: the text `{{` is malformed, any other text
compiles. -/
def sampleParse (name text : String) : Except String SampleTmpl :=
  if text == "\x7b\x7b" then Except.error ("template: " ++ name ++ ":1: unclosed action")
  else Except.ok (name, text)

/-- The name the example engine prints for `{{.Name}}`. -/
def sampleName (ctx : Context) : String :=
  match ctx with
  | Context.generic m =>
    match m.lookup "Name" with
    | some (GoVal.string n) => n
    | _ => "<no value>"
  | _ => "<no value>"

/-- The example engine's execution: `{{.Now.Foo}}` fails, since a time has no
field `Foo`; `Hello {{.Name}}` greets the name in the context; any other text
is printed as it is. -/
def sampleExecute (tmpl : SampleTmpl) (ctx : Context) : Except String String :=
  if tmpl.2 == "\x7b\x7b.Now.Foo\x7d\x7d" then
    Except.error ("template: " ++ tmpl.1 ++ ":1:3: executing \"" ++ tmpl.1
      ++ "\" at <.Now.Foo>: can't evaluate field Foo in type time.Time")
  else if tmpl.2 == "Hello \x7b\x7b.Name\x7d\x7d" then Except.ok ("Hello " ++ sampleName ctx)
  else Except.ok tmpl.2

/-- The example time parser: it knows the first instant of 2020, in UTC. -/
def sampleParseTime (s : String) : Option Time :=
  if s == "2020-01-01T00:00:00Z" then some ⟨63713433600000000000⟩ else none

/-- An environment for the examples: the example engine, the example time
parser, and a clock that starts at a fixed instant late in 2024. -/
def sampleEnv : Env SampleTmpl :=
  { Parse := sampleParse
    Execute := sampleExecute
    ParseTime := sampleParseTime
    Now := fun k => ⟨63866000000000000000 + (k : Int)⟩ }

/-! ## Theorems -/

theorem Get_of_no_match (d : EventDetails) (name : String)
    (h : ∀ e, some e ∈ d → e.Name ≠ name) :
    EventDetails.Get d name
      = some { Name := name, Label := name, Value := GoVal.nil, Tag := "" } := by
  induction d with
  | nil => rfl
  | cons it rest ih =>
    have hit : EventDetail.nameIs it name = false := by
      cases it with
      | none => rfl
      | some e =>
        have := h e (List.mem_cons_self _ _)
        simp [EventDetail.nameIs, this]
    simp only [EventDetails.Get, hit]
    exact ih (fun e he => h e (List.mem_cons_of_mem _ he))

theorem Get_of_first_match (d : EventDetails) (name : String) (i : Nat) (e : EventDetail)
    (hi : d[i]? = some (some e)) (hn : e.Name = name)
    (hfirst : ∀ j, j < i → ∀ e', d[j]? = some (some e') → e'.Name ≠ name) :
    EventDetails.Get d name = some e := by
  induction d generalizing i with
  | nil => simp at hi
  | cons it rest ih =>
    cases i with
    | zero =>
      simp at hi
      subst hi
      simp [EventDetails.Get, EventDetail.nameIs, hn]
    | succ k =>
      have hit : EventDetail.nameIs it name = false := by
        cases it with
        | none => rfl
        | some e0 =>
          have := hfirst 0 (Nat.succ_pos k) e0 (by simp)
          simp [EventDetail.nameIs, this]
      simp only [EventDetails.Get, hit]
      apply ih k
      · simpa using hi
      · intro j hj e' he'
        exact hfirst (j + 1) (Nat.succ_lt_succ hj) e' (by simpa using he')

theorem Get_ne_none (d : EventDetails) (name : String) :
    EventDetails.Get d name ≠ none := by
  induction d with
  | nil => simp [EventDetails.Get]
  | cons it rest ih =>
    by_cases hit : EventDetail.nameIs it name = true
    · cases it with
      | none => simp [EventDetail.nameIs] at hit
      | some e => simp [EventDetails.Get, hit]
    · simp only [EventDetails.Get, hit]
      exact ih

/-- C1: `d.Get(name)` is never nil; it is the first non-nil element whose Name
is `name` when there is one (the element at the least index `i` holding such a
match), and otherwise the placeholder with `Name = Label = name` and a null
Value; `d.GetValue(name)` is accordingly the first match's Value, or null. -/
theorem C1_Get_first_match_or_placeholder (d : EventDetails) (name : String) :
    (∃ it, EventDetails.Get d name = some it) ∧
    (∀ (i : Nat) (e : EventDetail), d[i]? = some (some e) → e.Name = name →
        (∀ j, j < i → ∀ e' : EventDetail, d[j]? = some (some e') → e'.Name ≠ name) →
        EventDetails.Get d name = some e ∧
        EventDetails.GetValue d name = some e.Value) ∧
    ((∀ e : EventDetail, some e ∈ d → e.Name ≠ name) →
        EventDetails.Get d name
          = some { Name := name, Label := name, Value := GoVal.nil, Tag := "" } ∧
        EventDetails.GetValue d name = some GoVal.nil) := by
  refine ⟨?_, ?_, ?_⟩
  · exact Option.ne_none_iff_exists'.mp (Get_ne_none d name)
  · intro i e hi hn hfirst
    have h := Get_of_first_match d name i e hi hn hfirst
    exact ⟨h, by simp [EventDetails.GetValue, h]⟩
  · intro h
    have h' := Get_of_no_match d name h
    exact ⟨h', by simp [EventDetails.GetValue, h']⟩

/-- C1 at a list with a nil entry and a duplicated name: the first match is
returned, and an absent name yields the placeholder. -/
theorem C1_Get_first_match_or_placeholder_witness :
    EventDetails.Get
        [none, some ⟨"a", "", GoVal.bool true, ""⟩, some ⟨"a", "", GoVal.bool false, ""⟩] "a"
      = some ⟨"a", "", GoVal.bool true, ""⟩ ∧
    EventDetails.GetValue [none, some ⟨"a", "", GoVal.bool true, ""⟩] "b" = some GoVal.nil :=
  ⟨((C1_Get_first_match_or_placeholder
        [none, some ⟨"a", "", GoVal.bool true, ""⟩, some ⟨"a", "", GoVal.bool false, ""⟩] "a").2.1
      1 ⟨"a", "", GoVal.bool true, ""⟩ rfl rfl
      (by
        intro j hj e' he'
        have hj0 : j = 0 := by omega
        subst hj0
        simp at he')).1,
   ((C1_Get_first_match_or_placeholder [none, some ⟨"a", "", GoVal.bool true, ""⟩] "b").2.2
      (by
        intro e he
        simp at he
        subst he
        decide)).2⟩

/-! ### The backtracking search on the locator's pattern -/

theorem starGreedy_of_some {α : Type} (p : Char → Bool) (s : List Char)
    (k : List Char → Option α) (r : α) (h : k (s.dropWhile p) = some r) :
    starGreedy p s k = some r := by
  induction s with
  | nil => simpa [starGreedy] using h
  | cons c cs ih =>
    by_cases hc : p c = true
    · simp only [List.dropWhile_cons, hc, if_true] at h
      simp [starGreedy, hc, ih h]
    · simp only [List.dropWhile_cons, hc] at h
      simpa [starGreedy, hc] using h

theorem starGreedy_of_reject {α : Type} (p : Char → Bool) (s : List Char)
    (k : List Char → Option α) (h : ∀ c cs, p c = true → k (c :: cs) = none) :
    starGreedy p s k = k (s.dropWhile p) := by
  induction s with
  | nil => simp [starGreedy]
  | cons c cs ih =>
    by_cases hc : p c = true
    · simp only [starGreedy, hc, if_true, List.dropWhile_cons, ih]
      cases hk : k (List.dropWhile p cs) with
      | some r => rfl
      | none => simpa using h c cs hc
    · simp [starGreedy, hc, List.dropWhile_cons]

theorem length_dropWhile_le (p : Char → Bool) (s : List Char) :
    (s.dropWhile p).length ≤ s.length := by
  induction s with
  | nil => simp
  | cons c cs ih =>
    by_cases hc : p c = true
    · simp only [List.dropWhile_cons, hc, if_true, List.length_cons]
      omega
    · simp [List.dropWhile_cons, hc]

theorem take_length_sub_dropWhile (p : Char → Bool) (s : List Char) :
    s.take (s.length - (s.dropWhile p).length) = s.takeWhile p := by
  induction s with
  | nil => simp
  | cons c cs ih =>
    by_cases hc : p c = true
    · have hle := length_dropWhile_le p cs
      have h : (c :: cs).length - (List.dropWhile p cs).length
          = (cs.length - (List.dropWhile p cs).length) + 1 := by
        simp only [List.length_cons]
        omega
      simp only [List.dropWhile_cons, hc, if_true, List.takeWhile_cons, h, List.take_succ_cons, ih]
    · simp [List.dropWhile_cons, List.takeWhile_cons, hc]

theorem notColon_of_isSpace (c : Char) (h : isSpace c = true) : notColon c = true := by
  simp only [isSpace, Bool.or_eq_true, beq_iff_eq] at h
  rcases h with (((h | h) | h) | h) | h <;> subst h <;> decide

theorem starGreedy_isSpace_nameForm {α : Type} (g : List Char → Option α) (s : List Char) :
    starGreedy isSpace s (nameForm g) = nameForm g s := by
  induction s with
  | nil => simp [starGreedy]
  | cons c cs ih =>
    by_cases hc : isSpace c = true
    · have hn := notColon_of_isSpace c hc
      simp only [starGreedy, hc, if_true, ih]
      cases hk : nameForm g cs with
      | none => rfl
      | some r =>
        cases cs with
        | nil => simp [nameForm] at hk
        | cons c1 cs1 =>
          by_cases h1 : notColon c1 = true
          · simp only [nameForm, h1, if_true] at hk
            simp [nameForm, hn, List.dropWhile_cons, h1, hk]
          · simp [nameForm, h1] at hk
    · simp [starGreedy, hc]

theorem run_cat {α : Type} (a b : Regex) (s : List Char) (caps : Caps)
    (K : List Char → Caps → Option α) :
    Regex.run (Regex.cat a b) s caps K
      = Regex.run a s caps (fun s1 c1 => Regex.run b s1 c1 K) := rfl

theorem run_cls_cons {α : Type} (p : Char → Bool) (c : Char) (cs : List Char) (caps : Caps)
    (K : List Char → Caps → Option α) :
    Regex.run (Regex.cls p) (c :: cs) caps K = if p c then K cs caps else none := rfl

theorem run_cls_nil {α : Type} (p : Char → Bool) (caps : Caps)
    (K : List Char → Caps → Option α) :
    Regex.run (Regex.cls p) [] caps K = none := rfl

theorem run_plus_cons {α : Type} (p : Char → Bool) (c : Char) (cs : List Char) (caps : Caps)
    (K : List Char → Caps → Option α) :
    Regex.run (Regex.plus p) (c :: cs) caps K
      = if p c then starGreedy p cs (fun rest => K rest caps) else none := rfl

theorem run_plus_nil {α : Type} (p : Char → Bool) (caps : Caps)
    (K : List Char → Caps → Option α) :
    Regex.run (Regex.plus p) [] caps K = none := rfl

theorem run_lit {α : Type} (l s : List Char) (caps : Caps)
    (K : List Char → Caps → Option α) :
    Regex.run (Regex.lit l) s caps K
      = match dropLit l s with
        | some rest => K rest caps
        | none => none := rfl

theorem run_star {α : Type} (p : Char → Bool) (s : List Char) (caps : Caps)
    (K : List Char → Caps → Option α) :
    Regex.run (Regex.star p) s caps K = starGreedy p s (fun rest => K rest caps) := rfl

theorem run_group {α : Type} (i : Nat) (a : Regex) (s : List Char) (caps : Caps)
    (K : List Char → Caps → Option α) :
    Regex.run (Regex.group i a) s caps K
      = Regex.run a s caps
          (fun s1 c1 => K s1 ((i, s.take (s.length - s1.length)) :: c1)) := rfl

theorem run_opt {α : Type} (a : Regex) (s : List Char) (caps : Caps)
    (K : List Char → Caps → Option α) :
    Regex.run (Regex.opt a) s caps K
      = match Regex.run a s caps K with
        | some r => some r
        | none => K s caps := rfl

theorem run_group_plus_digit {α : Type} (i : Nat) (d : Char) (ds : List Char) (caps : Caps)
    (K : List Char → Caps → Option α) (hd : isDigit d = true) (r : α)
    (h : K (ds.dropWhile isDigit) ((i, d :: ds.takeWhile isDigit) :: caps) = some r) :
    Regex.run (Regex.group i (Regex.plus isDigit)) (d :: ds) caps K = some r := by
  rw [run_group, run_plus_cons, if_pos hd]
  apply starGreedy_of_some
  have ht := take_length_sub_dropWhile isDigit (d :: ds)
  simp only [List.dropWhile_cons, hd, if_true, List.takeWhile_cons] at ht
  rw [ht]
  exact h

theorem run_columnPart {α : Type} (K : List Char → Caps → Option α)
    (hK : ∀ r c, K r c ≠ none) (s : List Char) (caps : Caps) :
    Regex.run columnPart s caps K = K (optForm s caps).1 (optForm s caps).2 := by
  unfold columnPart
  rw [run_opt, run_cat]
  cases s with
  | nil => simp [run_cls_nil, optForm]
  | cons c cs =>
    rw [run_cls_cons]
    by_cases hc : isColon c = true
    · cases cs with
      | nil => simp [hc, run_group, run_plus_nil, optForm]
      | cons d ds =>
        by_cases hd : isDigit d = true
        · obtain ⟨r, hr⟩ := Option.ne_none_iff_exists'.mp
            (hK (ds.dropWhile isDigit) ((2, d :: ds.takeWhile isDigit) :: caps))
          simp only [hc, if_true]
          rw [run_group_plus_digit 2 d ds caps K hd r hr]
          simp [optForm, hc, hd, hr]
        · simp [hc, hd, run_group, run_plus_cons, optForm]
    · cases cs with
      | nil => simp [hc, optForm]
      | cons d ds => simp [hc, optForm]

theorem run_positionPart {α : Type} (K : List Char → Caps → Option α)
    (hK : ∀ r c, K r c ≠ none) (s : List Char) :
    Regex.run positionPart s [] K = (positionForm s).bind (fun x => K x.1 x.2) := by
  unfold positionPart
  rw [run_cat]
  cases s with
  | nil => simp [run_cls_nil, positionForm]
  | cons c cs =>
    rw [run_cls_cons]
    by_cases hc : isColon c = true
    · simp only [hc, if_true]
      rw [run_cat]
      cases cs with
      | nil => simp [run_group, run_plus_nil, positionForm]
      | cons d ds =>
        by_cases hd : isDigit d = true
        · obtain ⟨r, hr⟩ := Option.ne_none_iff_exists'.mp
            (hK (optForm (ds.dropWhile isDigit) [(1, d :: ds.takeWhile isDigit)]).1
              (optForm (ds.dropWhile isDigit) [(1, d :: ds.takeWhile isDigit)]).2)
          rw [run_group_plus_digit 1 d ds [] _ hd r
            (by rw [run_columnPart K hK]; exact hr)]
          simp [positionForm, hc, hd, hr]
        · simp [hd, run_group, run_plus_cons, positionForm]
    · cases cs with
      | nil => simp [hc, positionForm]
      | cons d ds => simp [hc, positionForm]

theorem run_positionPart_reject {α : Type} (K : List Char → Caps → Option α)
    (c : Char) (cs : List Char) (h : notColon c = true) :
    Regex.run positionPart (c :: cs) [] K = none := by
  have hc : isColon c = false := by
    simp only [notColon, bne_iff_ne, ne_eq] at h
    simp [isColon, h]
  unfold positionPart
  rw [run_cat, run_cls_cons]
  simp [hc]

theorem nameForm_bind {α β : Type} (g : List Char → Option α) (f : α → Option β)
    (s : List Char) :
    (nameForm g s).bind f = nameForm (fun r => (g r).bind f) s := by
  cases s with
  | nil => simp [nameForm]
  | cons c cs => by_cases hc : notColon c = true <;> simp [nameForm, hc]

theorem run_namePart {α : Type} (K : List Char → Caps → Option α)
    (hK : ∀ r c, K r c ≠ none) (s : List Char) :
    Regex.run namePart s [] K
      = nameForm (fun t => (positionForm t).bind (fun x => K x.1 x.2)) s := by
  unfold namePart
  rw [run_cat]
  cases s with
  | nil => simp [run_plus_nil, nameForm]
  | cons c cs =>
    rw [run_plus_cons]
    by_cases hc : notColon c = true
    · have hrej := starGreedy_of_reject notColon cs
        (fun t => Regex.run positionPart t [] K)
        (fun c1 cs1 h1 => run_positionPart_reject K c1 cs1 h1)
      simp only [] at hrej
      rw [run_positionPart K hK] at hrej
      simp only [nameForm, hc, if_true]
      exact hrej
    · simp [nameForm, hc]

/-- The backtracking search for the locator's pattern at the head of `s`
finds exactly what the closed form describes. -/
theorem run_linePattern {α : Type} (K : List Char → Caps → Option α)
    (hK : ∀ r c, K r c ≠ none) (s : List Char) :
    Regex.run linePattern s [] K = (lineForm s).bind (fun x => K x.1 x.2) := by
  unfold linePattern lineForm
  rw [run_cat, run_lit]
  cases hl : dropLit "template:".toList s with
  | none => rfl
  | some rest =>
    have hfun : (fun r => Regex.run namePart r [] K)
        = nameForm (fun t => (positionForm t).bind (fun x => K x.1 x.2)) :=
      funext (run_namePart K hK)
    have hsp := starGreedy_isSpace_nameForm
      (fun t => (positionForm t).bind (fun x => K x.1 x.2)) rest
    rw [← hfun] at hsp
    beta_reduce at hsp
    show Regex.run (Regex.cat (Regex.star isSpace) namePart) rest [] K = _
    rw [run_cat, run_star, nameForm_bind, ← run_namePart K hK]
    exact hsp

theorem matchHere_linePattern (s : List Char) :
    Regex.matchHere linePattern s
      = (lineForm s).map (fun x => (s.take (s.length - x.1.length), x.2)) := by
  unfold Regex.matchHere
  rw [run_linePattern _ (fun _ _ => by simp)]
  cases lineForm s <;> rfl

theorem find_of_matchHere (re : Regex) (s : List Char) (r : List Char × Caps)
    (h : Regex.matchHere re s = some r) : Regex.find re s = some r := by
  cases s with
  | nil => simpa [Regex.find] using h
  | cons c cs => simp [Regex.find, h]

theorem find_some_matchHere (re : Regex) (s : List Char) (r : List Char × Caps)
    (h : Regex.find re s = some r) :
    ∃ pre t, s = pre ++ t ∧ Regex.matchHere re t = some r := by
  induction s with
  | nil => exact ⟨[], [], rfl, by simpa [Regex.find] using h⟩
  | cons c cs ih =>
    cases hm : Regex.matchHere re (c :: cs) with
    | some r1 =>
      simp only [Regex.find, hm] at h
      exact ⟨[], c :: cs, rfl, by rw [hm, h]⟩
    | none =>
      simp only [Regex.find, hm] at h
      obtain ⟨pre, t, hs, ht⟩ := ih h
      exact ⟨c :: pre, t, by simp [hs], ht⟩

theorem dropLit_append (l r : List Char) : dropLit l (l ++ r) = some r := by
  induction l with
  | nil => cases r <;> rfl
  | cons a l ih => simp [dropLit, ih]

theorem dropWhile_append_stop (p : Char → Bool) (l : List Char) (x : Char) (r : List Char)
    (hl : ∀ c ∈ l, p c = true) (hx : p x = false) :
    (l ++ x :: r).dropWhile p = x :: r := by
  induction l with
  | nil => simp [List.dropWhile_cons, hx]
  | cons a l ih =>
    have ha := hl a (List.mem_cons_self _ _)
    simp only [List.cons_append, List.dropWhile_cons, ha, if_true]
    exact ih (fun c hc => hl c (List.mem_cons_of_mem _ hc))

theorem takeWhile_append_stop (p : Char → Bool) (l : List Char) (x : Char) (r : List Char)
    (hl : ∀ c ∈ l, p c = true) (hx : p x = false) :
    (l ++ x :: r).takeWhile p = l := by
  induction l with
  | nil => simp [List.takeWhile_cons, hx]
  | cons a l ih =>
    have ha := hl a (List.mem_cons_self _ _)
    simp only [List.cons_append, List.takeWhile_cons, ha, if_true]
    rw [ih (fun c hc => hl c (List.mem_cons_of_mem _ hc))]

theorem isDigit_not_sign (d : Char) (h : isDigit d = true) : d ≠ '-' ∧ d ≠ '+' := by
  constructor <;> intro hd <;> subst hd <;> revert h <;> decide

/-- Go `Atoi` on a non-empty string of decimal digits: its value, or the
largest `int` when the value does not fit. -/
theorem Atoi_digits (ds : List Char) (hne : ds ≠ []) (hall : ∀ c ∈ ds, isDigit c = true) :
    Atoi (String.mk ds)
      = if decimalValue ds ≥ 2 ^ 63 then (2 ^ 63 - 1, true) else ((decimalValue ds : Int), false) := by
  cases ds with
  | nil => exact absurd rfl hne
  | cons d rest =>
    have hd := hall d (List.mem_cons_self _ _)
    obtain ⟨h1, h2⟩ := isDigit_not_sign d hd
    have hall' : (d :: rest).all isDigit = true := by
      simpa [List.all_eq_true] using hall
    simp only [Atoi, String.toList, List.head?_cons]
    have e1 : (some d == some '-') = false := by simp [h1]
    have e2 : (some d == some '+') = false := by simp [h2]
    simp only [e1, e2, Bool.or_self, Bool.false_eq_true, if_false, List.isEmpty_cons, hall',
      Bool.not_true]

theorem optForm_caps (s : List Char) (g1 : List Char) :
    (optForm s [(1, g1)]).2 = [(1, g1)] ∨
    ∃ g2 : List Char, g2 ≠ [] ∧ (∀ c ∈ g2, isDigit c = true) ∧
      (optForm s [(1, g1)]).2 = [(2, g2), (1, g1)] := by
  cases s with
  | nil => left; rfl
  | cons c cs =>
    cases cs with
    | nil => left; rfl
    | cons d ds =>
      by_cases h : (isColon c && isDigit d) = true
      · right
        refine ⟨d :: ds.takeWhile isDigit, by simp, ?_, by simp [optForm, h]⟩
        intro x hx
        simp only [Bool.and_eq_true] at h
        rcases List.mem_cons.mp hx with hx | hx
        · rw [hx]; exact h.2
        · exact List.mem_takeWhile_imp hx
      · left
        simp [optForm, h]

/-- The captures of a match of the locator's pattern: group 1 is a non-empty
string of digits, and group 2 is absent or a non-empty string of digits. -/
theorem lineForm_caps (s rest : List Char) (caps : Caps) (h : lineForm s = some (rest, caps)) :
    ∃ g1 : List Char, g1 ≠ [] ∧ (∀ c ∈ g1, isDigit c = true) ∧
      (caps = [(1, g1)] ∨
        ∃ g2 : List Char, g2 ≠ [] ∧ (∀ c ∈ g2, isDigit c = true) ∧ caps = [(2, g2), (1, g1)]) := by
  unfold lineForm at h
  cases hl : dropLit "template:".toList s with
  | none =>
    rw [hl] at h
    simp at h
  | some r1 =>
    rw [hl] at h
    dsimp only at h
    cases r1 with
    | nil => simp [nameForm] at h
    | cons c cs =>
      by_cases hc : notColon c = true
      · simp only [nameForm, hc, if_true] at h
        generalize List.dropWhile notColon cs = r2 at h
        cases r2 with
        | nil => simp [positionForm] at h
        | cons c2 r3 =>
          cases r3 with
          | nil => simp [positionForm] at h
          | cons d ds =>
            by_cases h2 : (isColon c2 && isDigit d) = true
            · simp only [positionForm, h2, if_true, Option.some.injEq] at h
              have hcaps : caps
                  = (optForm (ds.dropWhile isDigit) [(1, d :: ds.takeWhile isDigit)]).2 := by
                rw [h]
              refine ⟨d :: ds.takeWhile isDigit, by simp, ?_, ?_⟩
              · intro x hx
                simp only [Bool.and_eq_true] at h2
                rcases List.mem_cons.mp hx with hx | hx
                · rw [hx]; exact h2.2
                · exact List.mem_takeWhile_imp hx
              · rw [hcaps]
                exact optForm_caps _ _
            · simp [positionForm, h2] at h
      · simp [nameForm, hc] at h

/-- The result of `FindStringSubmatch` for the locator's pattern: nothing, or
the match, a non-empty digit string for group 1 and a digit string for group 2
(empty when the group took no part). -/
theorem FindStringSubmatch_linePattern (msg : String) :
    Regex.FindStringSubmatch linePattern 2 msg = [] ∨
    ∃ whole g1 g2 : List Char,
      Regex.FindStringSubmatch linePattern 2 msg
        = [String.mk whole, String.mk g1, String.mk g2] ∧
      g1 ≠ [] ∧ (∀ c ∈ g1, isDigit c = true) ∧ (∀ c ∈ g2, isDigit c = true) := by
  unfold Regex.FindStringSubmatch
  cases hf : Regex.find linePattern msg.toList with
  | none => left; rfl
  | some r =>
    right
    obtain ⟨whole, caps⟩ := r
    obtain ⟨pre, t, _, ht⟩ := find_some_matchHere _ _ _ hf
    rw [matchHere_linePattern] at ht
    cases hlf : lineForm t with
    | none => simp [hlf] at ht
    | some x =>
      obtain ⟨rest, caps1⟩ := x
      simp only [hlf, Option.map_some', Option.some.injEq, Prod.mk.injEq] at ht
      obtain ⟨g1, hne, hd1, hcaps⟩ := lineForm_caps t rest caps1 hlf
      rw [ht.2] at hcaps
      rcases hcaps with hcaps | ⟨g2, _, hd2, hcaps⟩
      · refine ⟨whole, g1, [], ?_, hne, hd1, by simp⟩
        subst hcaps
        simp [List.range, List.range.loop, capture, List.lookup]
      · refine ⟨whole, g1, g2, ?_, hne, hd1, hd2⟩
        subst hcaps
        simp [List.range, List.range.loop, capture, List.lookup]

theorem Atoi_digits_fst (ds : List Char) (hne : ds ≠ []) (hall : ∀ c ∈ ds, isDigit c = true) :
    (Atoi (String.mk ds)).1 = ((min (decimalValue ds) (2 ^ 63 - 1) : Nat) : Int) := by
  rw [Atoi_digits ds hne hall]
  by_cases h : decimalValue ds ≥ 2 ^ 63
  · have hm : min (decimalValue ds) (2 ^ 63 - 1) = 2 ^ 63 - 1 := by
      apply Nat.min_eq_right
      omega
    rw [if_pos h, hm]
    norm_num
  · have hm : min (decimalValue ds) (2 ^ 63 - 1) = decimalValue ds := by
      apply Nat.min_eq_left
      omega
    rw [if_neg h, hm]

theorem String_mk_ne_empty (l : List Char) (h : l ≠ []) : String.mk l ≠ "" := by
  intro hs
  apply h
  have := congrArg String.data hs
  simpa using this

/-- The result of `extractLineColumn` on a message, from the result of the
pattern search. -/
theorem extractLineColumn_of_submatch (msg : String) (whole g1 g2 : List Char)
    (h : Regex.FindStringSubmatch linePattern 2 msg
      = [String.mk whole, String.mk g1, String.mk g2])
    (hne : g1 ≠ []) (hd1 : ∀ c ∈ g1, isDigit c = true) (hd2 : ∀ c ∈ g2, isDigit c = true) :
    extractLineColumn msg
      = (((min (decimalValue g1) (2 ^ 63 - 1) : Nat) : Int),
         if g2 = [] then 0 else ((min (decimalValue g2) (2 ^ 63 - 1) : Nat) : Int)) := by
  unfold extractLineColumn
  simp only [h]
  by_cases h2 : g2 = []
  · subst h2
    simp [Atoi_digits_fst g1 hne hd1]
  · have hs := String_mk_ne_empty g2 h2
    simp [Atoi_digits_fst g1 hne hd1, Atoi_digits_fst g2 h2 hd2, h2, hs]

theorem extractLineColumn_of_no_submatch (msg : String)
    (h : Regex.FindStringSubmatch linePattern 2 msg = []) :
    extractLineColumn msg = (0, 0) := by
  unfold extractLineColumn
  simp [h]

/-- C3 (as amended): when the leftmost match of the position pattern carries
an explicit column `c`, `renderErr` reports Column present and equal to `c`
(the largest `int` when `c` does not fit) if `c` is positive, and absent if
`c` is zero; Column is absent exactly when there is no match, no column group,
or a column of zero. -/
theorem C3_column_present_iff_positive (msg : String) :
    (∀ whole g1 g2 : String,
        Regex.FindStringSubmatch linePattern 2 msg = [whole, g1, g2] → g2 ≠ "" →
        (renderErr msg).Column
          = if decimalValue g2.toList = 0 then none
            else some ((min (decimalValue g2.toList) (2 ^ 63 - 1) : Nat) : Int)) ∧
    ((renderErr msg).Column = none ↔
        (Regex.FindStringSubmatch linePattern 2 msg = [] ∨
          ∃ whole g1 g2 : String,
            Regex.FindStringSubmatch linePattern 2 msg = [whole, g1, g2] ∧
            (g2 = "" ∨ decimalValue g2.toList = 0))) := by
  rcases FindStringSubmatch_linePattern msg with h | ⟨whole, g1, g2, h, hne, hd1, hd2⟩
  · have he := extractLineColumn_of_no_submatch msg h
    refine ⟨?_, ?_⟩
    · intro w a b hw
      rw [h] at hw
      simp at hw
    · simp [renderErr, he, h]
  · have he := extractLineColumn_of_submatch msg whole g1 g2 h hne hd1 hd2
    have hcol : (renderErr msg).Column
        = if g2 = [] ∨ decimalValue g2 = 0 then none
          else some ((min (decimalValue g2) (2 ^ 63 - 1) : Nat) : Int) := by
      simp only [renderErr, he]
      by_cases h2 : g2 = []
      · simp [h2]
      · by_cases h0 : decimalValue g2 = 0
        · simp [h2, h0]
        · have hpos : (0 : Int) < ((min (decimalValue g2) (2 ^ 63 - 1) : Nat) : Int) := by
            have : 0 < min (decimalValue g2) (2 ^ 63 - 1) := by
              apply Nat.lt_min.mpr
              constructor <;> omega
            exact_mod_cast this
          simp only [h2, h0, if_false, or_self, hpos, if_true]
    refine ⟨?_, ?_⟩
    · intro w a b hw hb
      rw [h] at hw
      simp only [List.cons.injEq, and_true] at hw
      obtain ⟨_, _, hb2⟩ := hw
      subst hb2
      have h2 : g2 ≠ [] := by
        intro hg
        apply hb
        rw [hg]
      rw [hcol]
      simp [h2]
    · rw [hcol]
      constructor
      · intro hnone
        right
        refine ⟨String.mk whole, String.mk g1, String.mk g2, h, ?_⟩
        by_cases h2 : g2 = []
        · left; rw [h2]
        · right
          by_contra h0
          have h0' : ¬ decimalValue g2 = 0 := h0
          simp [h2, h0'] at hnone
      · intro hr
        rcases hr with hr | ⟨w, a, b, hw, hb⟩
        · rw [h] at hr
          simp at hr
        · rw [h] at hw
          simp only [List.cons.injEq, and_true] at hw
          obtain ⟨_, _, hb2⟩ := hw
          subst hb2
          rcases hb with hb | hb
          · have h2 : g2 = [] := by
              have := congrArg String.data hb
              simpa using this
            simp [h2]
          · have hb' : decimalValue g2 = 0 := by simpa using hb
            simp [hb']

/-- C3 at `"template: body:7:3: function not defined"`: the column group is
`"3"` and Column is present and equal to 3. -/
theorem C3_column_present_iff_positive_witness :
    Regex.FindStringSubmatch linePattern 2 "template: body:7:3: function not defined"
      = ["template: body:7:3", "7", "3"] ∧
    (renderErr "template: body:7:3: function not defined").Column = some 3 :=
  ⟨by decide,
   ((C3_column_present_iff_positive "template: body:7:3: function not defined").1
      "template: body:7:3" "7" "3" (by decide) (by decide)).trans (by decide)⟩

/-- C3 fails as stated: in `"template: body:7:0: bad"` the pattern matches with
the explicit column number 0, and `renderErr` reports Column absent. -/
theorem C3_explicit_zero_column_reported_absent :
    Regex.FindStringSubmatch linePattern 2 "template: body:7:0: bad"
      = ["template: body:7:0", "7", "0"] ∧
    (renderErr "template: body:7:0: bad").Column = none ∧
    (renderErr "template: body:7:0: bad").Column ≠ some 0 := by
  decide

theorem positionForm_line_column (ls cs tail : List Char)
    (hl : ls ≠ []) (hld : ∀ c ∈ ls, isDigit c = true)
    (hc : cs ≠ []) (hcd : ∀ c ∈ cs, isDigit c = true) :
    positionForm (':' :: (ls ++ ':' :: (cs ++ ':' :: tail)))
      = some (':' :: tail, [(2, cs), (1, ls)]) := by
  have hnd : isDigit ':' = false := by decide
  have hcol : isColon ':' = true := by decide
  cases ls with
  | nil => exact absurd rfl hl
  | cons d ds =>
    cases cs with
    | nil => exact absurd rfl hc
    | cons e es =>
      have hd := hld d (List.mem_cons_self _ _)
      have hds : ∀ c ∈ ds, isDigit c = true := fun c h => hld c (List.mem_cons_of_mem _ h)
      have he := hcd e (List.mem_cons_self _ _)
      have hes : ∀ c ∈ es, isDigit c = true := fun c h => hcd c (List.mem_cons_of_mem _ h)
      simp only [positionForm, List.cons_append, hcol, hd, Bool.and_self, if_true,
        takeWhile_append_stop isDigit ds ':' _ hds hnd,
        dropWhile_append_stop isDigit ds ':' _ hds hnd, optForm, he,
        takeWhile_append_stop isDigit es ':' _ hes hnd,
        dropWhile_append_stop isDigit es ':' _ hes hnd]

theorem positionForm_line_only (ls tail : List Char)
    (hl : ls ≠ []) (hld : ∀ c ∈ ls, isDigit c = true) :
    positionForm (':' :: (ls ++ ':' :: ' ' :: tail))
      = some (':' :: ' ' :: tail, [(1, ls)]) := by
  have hnd : isDigit ':' = false := by decide
  have hns : isDigit ' ' = false := by decide
  have hcol : isColon ':' = true := by decide
  cases ls with
  | nil => exact absurd rfl hl
  | cons d ds =>
    have hd := hld d (List.mem_cons_self _ _)
    have hds : ∀ c ∈ ds, isDigit c = true := fun c h => hld c (List.mem_cons_of_mem _ h)
    simp only [positionForm, List.cons_append, hcol, hd, Bool.and_self, if_true,
      takeWhile_append_stop isDigit ds ':' _ hds hnd,
      dropWhile_append_stop isDigit ds ':' _ hds hnd, optForm, hns, Bool.and_false,
      Bool.false_eq_true, if_false]

theorem lineForm_named (name rest : List Char) (hname : ∀ c ∈ name, notColon c = true) :
    lineForm ("template:".toList ++ ' ' :: (name ++ ':' :: rest))
      = positionForm (':' :: rest) := by
  have hsp : notColon ' ' = true := by decide
  have hcol : notColon ':' = false := by decide
  unfold lineForm
  rw [dropLit_append]
  simp only [nameForm, hsp, if_true, dropWhile_append_stop notColon name ':' rest hname hcol]

/-- The submatches found in a message that starts with `template: `, a name
without a colon, and a position that `positionForm` accepts. -/
theorem FindStringSubmatch_named (name rest left : List Char) (caps : Caps)
    (hname : ∀ c ∈ name, notColon c = true)
    (hpos : positionForm (':' :: rest) = some (left, caps)) :
    ∃ whole : List Char,
      Regex.FindStringSubmatch linePattern 2
          (String.mk ("template:".toList ++ ' ' :: (name ++ ':' :: rest)))
        = [String.mk whole, capture caps 1, capture caps 2] := by
  have hm := matchHere_linePattern ("template:".toList ++ ' ' :: (name ++ ':' :: rest))
  rw [lineForm_named name rest hname, hpos] at hm
  have hf := find_of_matchHere _ _ _ hm
  refine ⟨List.take
    (("template:".toList ++ ' ' :: (name ++ ':' :: rest)).length - left.length)
    ("template:".toList ++ ' ' :: (name ++ ':' :: rest)), ?_⟩
  have hf' : Regex.find linePattern
      (String.mk ("template:".toList ++ ' ' :: (name ++ ':' :: rest))).toList = _ := hf
  unfold Regex.FindStringSubmatch
  rw [hf']
  simp [List.range, List.range.loop]

theorem notColon_of_not_mem (name : String) (h : ':' ∉ name.toList) :
    ∀ c ∈ name.toList, notColon c = true := by
  intro c hc
  simp only [notColon, bne_iff_ne, ne_eq]
  intro hcc
  exact h (hcc ▸ hc)

theorem toList_ne_nil (s : String) (h : s ≠ "") : s.toList ≠ [] := by
  intro hs
  apply h
  apply String.ext
  simpa using hs

theorem min_cast_of_lt (n : Nat) (h : n < 2 ^ 63) :
    ((min n (2 ^ 63 - 1) : Nat) : Int) = (n : Int) := by
  have : min n (2 ^ 63 - 1) = n := by
    apply Nat.min_eq_left
    omega
  rw [this]

/-- C5 (as amended): for a message `template: <name>:<L>:<C>: <detail>` whose
name has no colon and whose `L`, `C` are decimal numerals that fit in an int,
`extractLineColumn` returns `(L, C)` and `renderErr` reports Line `L` with
Column present and equal to `C` when `C` is not zero and absent when it is;
for a message `template: <name>:<L>: <detail>` they give `(L, 0)`, Line `L`
and Column absent. -/
theorem C5_position_of_engine_message :
    (∀ name L C detail : String, ':' ∉ name.toList →
        L ≠ "" → (∀ c ∈ L.toList, isDigit c = true) → decimalValue L.toList < 2 ^ 63 →
        C ≠ "" → (∀ c ∈ C.toList, isDigit c = true) → decimalValue C.toList < 2 ^ 63 →
        extractLineColumn ("template: " ++ name ++ ":" ++ L ++ ":" ++ C ++ ": " ++ detail)
          = ((decimalValue L.toList : Int), (decimalValue C.toList : Int)) ∧
        (renderErr ("template: " ++ name ++ ":" ++ L ++ ":" ++ C ++ ": " ++ detail)).Line
          = (decimalValue L.toList : Int) ∧
        (renderErr ("template: " ++ name ++ ":" ++ L ++ ":" ++ C ++ ": " ++ detail)).Column
          = if decimalValue C.toList = 0 then none else some (decimalValue C.toList : Int)) ∧
    (∀ name L detail : String, ':' ∉ name.toList →
        L ≠ "" → (∀ c ∈ L.toList, isDigit c = true) → decimalValue L.toList < 2 ^ 63 →
        extractLineColumn ("template: " ++ name ++ ":" ++ L ++ ": " ++ detail)
          = ((decimalValue L.toList : Int), 0) ∧
        (renderErr ("template: " ++ name ++ ":" ++ L ++ ": " ++ detail)).Line
          = (decimalValue L.toList : Int) ∧
        (renderErr ("template: " ++ name ++ ":" ++ L ++ ": " ++ detail)).Column = none) := by
  constructor
  · intro name L C detail hname hL hLd hLfit hC hCd hCfit
    have hmsg : "template: " ++ name ++ ":" ++ L ++ ":" ++ C ++ ": " ++ detail
        = String.mk ("template:".toList ++ ' ' :: (name.toList ++ ':' ::
            (L.toList ++ ':' :: (C.toList ++ ':' :: ' ' :: detail.toList)))) := by
      apply String.ext
      simp
    have hLne := toList_ne_nil L hL
    have hCne := toList_ne_nil C hC
    obtain ⟨whole, hfss⟩ := FindStringSubmatch_named name.toList _ _ _
      (notColon_of_not_mem name hname)
      (positionForm_line_column L.toList C.toList (' ' :: detail.toList) hLne hLd hCne hCd)
    have hcap1 : capture [(2, C.toList), (1, L.toList)] 1 = String.mk L.toList := by
      simp [capture, List.lookup]
    have hcap2 : capture [(2, C.toList), (1, L.toList)] 2 = String.mk C.toList := by
      simp [capture, List.lookup]
    rw [hcap1, hcap2, ← hmsg] at hfss
    have he := extractLineColumn_of_submatch _ whole L.toList C.toList hfss hLne hLd hCd
    rw [min_cast_of_lt _ hLfit, min_cast_of_lt _ hCfit, if_neg hCne] at he
    refine ⟨he, by simp [renderErr, he], ?_⟩
    simp only [renderErr, he]
    by_cases h0 : decimalValue C.toList = 0
    · rw [h0]
      simp
    · have hpos : (0 : Int) < (decimalValue C.toList : Int) := by
        have : 0 < decimalValue C.toList := Nat.pos_of_ne_zero h0
        exact_mod_cast this
      simp only [h0, if_false, hpos, if_true]
  · intro name L detail hname hL hLd hLfit
    have hmsg : "template: " ++ name ++ ":" ++ L ++ ": " ++ detail
        = String.mk ("template:".toList ++ ' ' :: (name.toList ++ ':' ::
            (L.toList ++ ':' :: ' ' :: detail.toList))) := by
      apply String.ext
      simp
    have hLne := toList_ne_nil L hL
    obtain ⟨whole, hfss⟩ := FindStringSubmatch_named name.toList _ _ _
      (notColon_of_not_mem name hname)
      (positionForm_line_only L.toList detail.toList hLne hLd)
    have hcap1 : capture [(1, L.toList)] 1 = String.mk L.toList := by
      simp [capture, List.lookup]
    have hcap2 : capture [(1, L.toList)] 2 = String.mk [] := by
      simp [capture, List.lookup]
    rw [hcap1, hcap2, ← hmsg] at hfss
    have he := extractLineColumn_of_submatch _ whole L.toList [] hfss hLne hLd (by simp)
    rw [min_cast_of_lt _ hLfit] at he
    simp only [if_true] at he
    exact ⟨he, by simp [renderErr, he], by simp [renderErr, he]⟩

/-- C5 at the two messages of the specification: line 7 and column 3, and
line 4 with no column. -/
theorem C5_position_of_engine_message_witness :
    (extractLineColumn
        ("template: " ++ "body" ++ ":" ++ "7" ++ ":" ++ "3" ++ ": " ++ "function not defined")
        = ((decimalValue "7".toList : Int), (decimalValue "3".toList : Int)) ∧
      (renderErr
        ("template: " ++ "body" ++ ":" ++ "7" ++ ":" ++ "3" ++ ": " ++ "function not defined")).Line
        = (decimalValue "7".toList : Int) ∧
      (renderErr
        ("template: " ++ "body" ++ ":" ++ "7" ++ ":" ++ "3" ++ ": " ++ "function not defined")).Column
        = if decimalValue "3".toList = 0 then none else some (decimalValue "3".toList : Int)) ∧
    (extractLineColumn ("template: " ++ "subject" ++ ":" ++ "4" ++ ": " ++ "unexpected EOF")
        = ((decimalValue "4".toList : Int), 0) ∧
      (renderErr ("template: " ++ "subject" ++ ":" ++ "4" ++ ": " ++ "unexpected EOF")).Line
        = (decimalValue "4".toList : Int) ∧
      (renderErr ("template: " ++ "subject" ++ ":" ++ "4" ++ ": " ++ "unexpected EOF")).Column
        = none) :=
  ⟨C5_position_of_engine_message.1 "body" "7" "3" "function not defined"
      (by decide) (by decide) (by decide) (by decide) (by decide) (by decide) (by decide),
   C5_position_of_engine_message.2 "subject" "4" "unexpected EOF"
      (by decide) (by decide) (by decide) (by decide)⟩

/-- C5 fails as stated: `"template: subject:4:0: unexpected EOF"` has the form
`template: <name>:<L>:<C>: <detail>` with `L = 4` and `C = 0`;
`extractLineColumn` returns `(4, 0)` and `renderErr` reports Column absent,
not present and equal to 0. -/
theorem C5_zero_column_numeral_reported_absent :
    "template: subject:4:0: unexpected EOF"
      = "template: " ++ "subject" ++ ":" ++ "4" ++ ":" ++ "0" ++ ": " ++ "unexpected EOF" ∧
    extractLineColumn "template: subject:4:0: unexpected EOF" = (4, 0) ∧
    (renderErr "template: subject:4:0: unexpected EOF").Line = 4 ∧
    (renderErr "template: subject:4:0: unexpected EOF").Column ≠ some 0 := by
  decide

/-! ### Context resolver and render orchestrator -/

/-- The write to a nil map in `buildContext` is never reached: the only
payload that leaves the map nil is `null`, which the strict decode accepts. -/
theorem buildContext_ne_none {Tmpl : Type} (env : Env Tmpl) (data : RawMessage) :
    buildContext env data ≠ none := by
  unfold buildContext
  cases hs : decodeStrict env.ParseTime data with
  | some ctx => simp
  | none =>
    cases data with
    | empty => simp [RawMessage.nonEmpty, GoMap.has, List.lookup]
    | invalid err => simp [RawMessage.nonEmpty, unmarshalMap]
    | value v t =>
      cases t with
      | some err => simp [RawMessage.nonEmpty, unmarshalMap]
      | none =>
        cases v with
        | null => simp [decodeStrict] at hs
        | bool b => simp [RawMessage.nonEmpty, unmarshalMap]
        | num lit => simp [RawMessage.nonEmpty, unmarshalMap]
        | str x => simp [RawMessage.nonEmpty, unmarshalMap]
        | arr xs => simp [RawMessage.nonEmpty, unmarshalMap]
        | obj kvs =>
          simp only [RawMessage.nonEmpty, unmarshalMap, if_true]
          cases toInterfaceMembers kvs [("Now", GoVal.time (env.Now 0))] with
          | error e => simp
          | ok m => by_cases h : GoMap.has m "Now" = true <;> simp [h]

/-- C10: for the empty (zero-length or absent) payload `buildContext` does not
fail: it returns a nil error, the flag false, and a generic mapping whose only
key is `"Now"`, bound to the reading of the clock. -/
theorem C10_empty_payload_gives_now_only {Tmpl : Type} (env : Env Tmpl) :
    buildContext env RawMessage.empty
      = some (Context.generic [("Now", GoVal.time (env.Now 0))], false, none) := by
  rfl

/-- C7: when the subject template fails to compile with message `m`, the
response carries only the subject-side error, with the line and column that
`renderErr` derives from `m`, and it is the same for every body template and
every data payload. -/
theorem C7_subject_parse_error_only {Tmpl : Type} (env : Env Tmpl)
    (req : RenderEmailRequest) (m : String)
    (h : env.Parse "subject" req.SubjectTemplate = Except.error m) :
    RenderEmail env req
      = some { SubjectOutput := "", BodyOutput := "", SubjectError := m, BodyError := "",
               SubjectLine := (renderErr m).Line, BodyLine := 0,
               SubjectColumn := (renderErr m).Column, BodyColumn := none } ∧
    ∀ (body : String) (data : RawMessage),
      RenderEmail env { SubjectTemplate := req.SubjectTemplate, BodyTemplate := body, Data := data }
        = RenderEmail env req := by
  refine ⟨?_, ?_⟩
  · simp [RenderEmail, h, renderErr]
  · intro body data
    simp [RenderEmail, h]

/-- C7 in the example environment: the subject `{{` does not compile, and the
response is the same with another body and a payload that is not JSON. -/
theorem C7_subject_parse_error_only_witness :
    sampleEnv.Parse "subject" "\x7b\x7b" = Except.error "template: subject:1: unclosed action" ∧
    RenderEmail sampleEnv
        { SubjectTemplate := "\x7b\x7b", BodyTemplate := "body", Data := RawMessage.empty }
      = some { SubjectOutput := "", BodyOutput := "",
               SubjectError := "template: subject:1: unclosed action", BodyError := "",
               SubjectLine := (renderErr "template: subject:1: unclosed action").Line,
               BodyLine := 0,
               SubjectColumn := (renderErr "template: subject:1: unclosed action").Column,
               BodyColumn := none } ∧
    RenderEmail sampleEnv
        { SubjectTemplate := "\x7b\x7b", BodyTemplate := "\x7b\x7b.Now.Foo\x7d\x7d",
          Data := RawMessage.invalid "unexpected end of JSON input" }
      = RenderEmail sampleEnv
        { SubjectTemplate := "\x7b\x7b", BodyTemplate := "body", Data := RawMessage.empty } :=
  ⟨rfl,
   (C7_subject_parse_error_only sampleEnv
     { SubjectTemplate := "\x7b\x7b", BodyTemplate := "body", Data := RawMessage.empty }
     "template: subject:1: unclosed action" rfl).1,
   (C7_subject_parse_error_only sampleEnv
     { SubjectTemplate := "\x7b\x7b", BodyTemplate := "body", Data := RawMessage.empty }
     "template: subject:1: unclosed action" rfl).2
     "\x7b\x7b.Now.Foo\x7d\x7d" (RawMessage.invalid "unexpected end of JSON input")⟩

/-- C8: when the templates compile and `buildContext` fails with error `e`,
`Render` returns Error = `"Data parse error: " + e` with Output empty, Line 0
and Column absent, and `RenderEmail` returns that same message as SubjectError
and as BodyError, with both outputs empty, both lines 0 and both columns
absent. -/
theorem C8_data_parse_error_has_no_position {Tmpl : Type} (env : Env Tmpl)
    (data : RawMessage) (ctx : Context) (flag : Bool) (e : JsonError)
    (hctx : buildContext env data = some (ctx, flag, some e)) :
    (∀ (text : String) (tmpl : Tmpl), env.Parse "template" text = Except.ok tmpl →
      Render env { Template := text, Data := data }
        = some { Output := "", Error := "Data parse error: " ++ e.Error, Line := 0,
                 Column := none }) ∧
    (∀ (subject body : String) (st bt : Tmpl),
      env.Parse "subject" subject = Except.ok st → env.Parse "body" body = Except.ok bt →
      RenderEmail env { SubjectTemplate := subject, BodyTemplate := body, Data := data }
        = some { SubjectOutput := "", BodyOutput := "",
                 SubjectError := "Data parse error: " ++ e.Error,
                 BodyError := "Data parse error: " ++ e.Error,
                 SubjectLine := 0, BodyLine := 0,
                 SubjectColumn := none, BodyColumn := none }) := by
  refine ⟨?_, ?_⟩
  · intro text tmpl hp
    simp [Render, hp, hctx]
  · intro subject body st bt hs hb
    simp [RenderEmail, hs, hb, hctx]

/-- C8 in the example environment, for a payload that is not JSON. -/
theorem C8_data_parse_error_has_no_position_witness :
    buildContext sampleEnv (RawMessage.invalid "invalid character 'x' looking for beginning of value")
      = some (Context.nil, false,
          some (JsonError.syntaxErr "invalid character 'x' looking for beginning of value")) ∧
    Render sampleEnv
        { Template := "Hello",
          Data := RawMessage.invalid "invalid character 'x' looking for beginning of value" }
      = some { Output := "",
               Error := "Data parse error: "
                 ++ (JsonError.syntaxErr "invalid character 'x' looking for beginning of value").Error,
               Line := 0, Column := none } ∧
    RenderEmail sampleEnv
        { SubjectTemplate := "Hello", BodyTemplate := "World",
          Data := RawMessage.invalid "invalid character 'x' looking for beginning of value" }
      = some { SubjectOutput := "", BodyOutput := "",
               SubjectError := "Data parse error: "
                 ++ (JsonError.syntaxErr "invalid character 'x' looking for beginning of value").Error,
               BodyError := "Data parse error: "
                 ++ (JsonError.syntaxErr "invalid character 'x' looking for beginning of value").Error,
               SubjectLine := 0, BodyLine := 0, SubjectColumn := none, BodyColumn := none } :=
  ⟨rfl,
   (C8_data_parse_error_has_no_position sampleEnv
      (RawMessage.invalid "invalid character 'x' looking for beginning of value")
      Context.nil false
      (JsonError.syntaxErr "invalid character 'x' looking for beginning of value") rfl).1
      "Hello" ("template", "Hello") rfl,
   (C8_data_parse_error_has_no_position sampleEnv
      (RawMessage.invalid "invalid character 'x' looking for beginning of value")
      Context.nil false
      (JsonError.syntaxErr "invalid character 'x' looking for beginning of value") rfl).2
      "Hello" "World" ("subject", "Hello") ("body", "World") rfl rfl⟩

/-- C2 (as amended): when both templates compile and the context resolves, the
two executions run in turn and the first failure ends the call.  If the
subject executes and the body fails with message `m`, the response carries
BodyError = `m` with the position `renderErr` derives from it, and
SubjectOutput, SubjectError and BodyOutput are empty.  If the subject fails
with message `m`, the response carries SubjectError = `m` with its position,
and both outputs and BodyError are empty, whatever the body would do. -/
theorem C2_execution_error_ends_the_call {Tmpl : Type} (env : Env Tmpl)
    (req : RenderEmailRequest) (st bt : Tmpl) (ctx : Context) (flag : Bool)
    (hs : env.Parse "subject" req.SubjectTemplate = Except.ok st)
    (hb : env.Parse "body" req.BodyTemplate = Except.ok bt)
    (hctx : buildContext env req.Data = some (ctx, flag, none)) :
    (∀ s m : String, env.Execute st ctx = Except.ok s → env.Execute bt ctx = Except.error m →
      RenderEmail env req
        = some { SubjectOutput := "", BodyOutput := "", SubjectError := "", BodyError := m,
                 SubjectLine := 0, BodyLine := (renderErr m).Line,
                 SubjectColumn := none, BodyColumn := (renderErr m).Column }) ∧
    (∀ m : String, env.Execute st ctx = Except.error m →
      RenderEmail env req
        = some { SubjectOutput := "", BodyOutput := "", SubjectError := m, BodyError := "",
                 SubjectLine := (renderErr m).Line, BodyLine := 0,
                 SubjectColumn := (renderErr m).Column, BodyColumn := none }) := by
  refine ⟨?_, ?_⟩
  · intro s m h1 h2
    simp [RenderEmail, hs, hb, hctx, h1, h2, renderErr]
  · intro m h1
    simp [RenderEmail, hs, hb, hctx, h1, renderErr]

/-- C2 (as amended) in the example environment: the subject `Hello` executes,
the body `{{.Now.Foo}}` fails, and the response carries the body error alone. -/
theorem C2_execution_error_ends_the_call_witness :
    RenderEmail sampleEnv
        { SubjectTemplate := "Hello", BodyTemplate := "\x7b\x7b.Now.Foo\x7d\x7d",
          Data := RawMessage.empty }
      = some { SubjectOutput := "", BodyOutput := "", SubjectError := "",
               BodyError := "template: body:1:3: executing \"body\" at <.Now.Foo>: "
                 ++ "can't evaluate field Foo in type time.Time",
               SubjectLine := 0,
               BodyLine := (renderErr ("template: body:1:3: executing \"body\" at <.Now.Foo>: "
                 ++ "can't evaluate field Foo in type time.Time")).Line,
               SubjectColumn := none,
               BodyColumn := (renderErr ("template: body:1:3: executing \"body\" at <.Now.Foo>: "
                 ++ "can't evaluate field Foo in type time.Time")).Column } :=
  (C2_execution_error_ends_the_call sampleEnv
      { SubjectTemplate := "Hello", BodyTemplate := "\x7b\x7b.Now.Foo\x7d\x7d",
        Data := RawMessage.empty }
      ("subject", "Hello") ("body", "\x7b\x7b.Now.Foo\x7d\x7d")
      (Context.generic [("Now", GoVal.time (sampleEnv.Now 0))]) false rfl rfl rfl).1
    "Hello"
    ("template: body:1:3: executing \"body\" at <.Now.Foo>: "
      ++ "can't evaluate field Foo in type time.Time")
    rfl rfl

/-- C2 fails as stated: in the example environment both templates compile and
the context resolves, the subject `Hello` executes with output `Hello` and the
body `{{.Now.Foo}}` fails; the response has the body error and an empty
SubjectOutput, not `Hello`.  With the two templates exchanged, the subject
fails and the response has an empty BodyOutput, not `Hello`. -/
theorem C2_successful_output_dropped_on_other_failure :
    (sampleEnv.Parse "subject" "Hello" = Except.ok ("subject", "Hello") ∧
     sampleEnv.Parse "body" "\x7b\x7b.Now.Foo\x7d\x7d"
       = Except.ok ("body", "\x7b\x7b.Now.Foo\x7d\x7d") ∧
     buildContext sampleEnv RawMessage.empty
       = some (Context.generic [("Now", GoVal.time (sampleEnv.Now 0))], false, none) ∧
     sampleEnv.Execute ("subject", "Hello")
         (Context.generic [("Now", GoVal.time (sampleEnv.Now 0))]) = Except.ok "Hello" ∧
     sampleEnv.Execute ("body", "\x7b\x7b.Now.Foo\x7d\x7d")
         (Context.generic [("Now", GoVal.time (sampleEnv.Now 0))])
       = Except.error ("template: body:1:3: executing \"body\" at <.Now.Foo>: "
           ++ "can't evaluate field Foo in type time.Time") ∧
     (RenderEmail sampleEnv
        { SubjectTemplate := "Hello", BodyTemplate := "\x7b\x7b.Now.Foo\x7d\x7d",
          Data := RawMessage.empty }).map (fun r => r.SubjectOutput) = some "" ∧
     (RenderEmail sampleEnv
        { SubjectTemplate := "Hello", BodyTemplate := "\x7b\x7b.Now.Foo\x7d\x7d",
          Data := RawMessage.empty }).map (fun r => r.SubjectOutput) ≠ some "Hello") ∧
    (sampleEnv.Execute ("subject", "\x7b\x7b.Now.Foo\x7d\x7d")
         (Context.generic [("Now", GoVal.time (sampleEnv.Now 0))])
       = Except.error ("template: subject:1:3: executing \"subject\" at <.Now.Foo>: "
           ++ "can't evaluate field Foo in type time.Time") ∧
     sampleEnv.Execute ("body", "Hello")
         (Context.generic [("Now", GoVal.time (sampleEnv.Now 0))]) = Except.ok "Hello" ∧
     (RenderEmail sampleEnv
        { SubjectTemplate := "\x7b\x7b.Now.Foo\x7d\x7d", BodyTemplate := "Hello",
          Data := RawMessage.empty }).map (fun r => r.BodyOutput) = some "" ∧
     (RenderEmail sampleEnv
        { SubjectTemplate := "\x7b\x7b.Now.Foo\x7d\x7d", BodyTemplate := "Hello",
          Data := RawMessage.empty }).map (fun r => r.BodyOutput) ≠ some "Hello") :=
  ⟨⟨rfl, rfl, rfl, rfl, rfl, by decide, by decide⟩, ⟨rfl, rfl, by decide, by decide⟩⟩

/-- C6 (as amended): when the subject template compiles and the body template
fails to compile with message `m`, the response has BodyError = `m` with the
body line and column that `renderErr` derives from `m`, and SubjectError,
SubjectOutput and BodyOutput are empty: the subject is not executed, whatever
the data payload is. -/
theorem C6_body_parse_error_only {Tmpl : Type} (env : Env Tmpl)
    (req : RenderEmailRequest) (st : Tmpl) (m : String)
    (hs : env.Parse "subject" req.SubjectTemplate = Except.ok st)
    (hb : env.Parse "body" req.BodyTemplate = Except.error m) :
    RenderEmail env req
      = some { SubjectOutput := "", BodyOutput := "", SubjectError := "", BodyError := m,
               SubjectLine := 0, BodyLine := (renderErr m).Line,
               SubjectColumn := none, BodyColumn := (renderErr m).Column } ∧
    ∀ data : RawMessage,
      RenderEmail env
          { SubjectTemplate := req.SubjectTemplate, BodyTemplate := req.BodyTemplate,
            Data := data }
        = RenderEmail env req := by
  refine ⟨?_, ?_⟩
  · simp [RenderEmail, hs, hb, renderErr]
  · intro data
    simp [RenderEmail, hs, hb]

/-- C6 (as amended) in the example environment: subject `Hello {{.Name}}` with
the malformed body `{{`. -/
theorem C6_body_parse_error_only_witness :
    RenderEmail sampleEnv
        { SubjectTemplate := "Hello \x7b\x7b.Name\x7d\x7d", BodyTemplate := "\x7b\x7b",
          Data := RawMessage.value (JVal.obj [("Name", JVal.str "World")]) none }
      = some { SubjectOutput := "", BodyOutput := "", SubjectError := "",
               BodyError := "template: body:1: unclosed action",
               SubjectLine := 0,
               BodyLine := (renderErr "template: body:1: unclosed action").Line,
               SubjectColumn := none,
               BodyColumn := (renderErr "template: body:1: unclosed action").Column } :=
  (C6_body_parse_error_only sampleEnv
      { SubjectTemplate := "Hello \x7b\x7b.Name\x7d\x7d", BodyTemplate := "\x7b\x7b",
        Data := RawMessage.value (JVal.obj [("Name", JVal.str "World")]) none }
      ("subject", "Hello \x7b\x7b.Name\x7d\x7d") "template: body:1: unclosed action" rfl rfl).1

/-- C6 fails as stated: in the example environment the subject
`Hello {{.Name}}` compiles and executes against the context resolved from
`{"Name":"World"}` with output `Hello World`, the body `{{` is malformed, and
the response has the body error with line 1 and an empty SubjectOutput. -/
theorem C6_subject_output_absent_on_malformed_body :
    sampleEnv.Parse "subject" "Hello \x7b\x7b.Name\x7d\x7d"
      = Except.ok ("subject", "Hello \x7b\x7b.Name\x7d\x7d") ∧
    sampleEnv.Parse "body" "\x7b\x7b" = Except.error "template: body:1: unclosed action" ∧
    buildContext sampleEnv (RawMessage.value (JVal.obj [("Name", JVal.str "World")]) none)
      = some (Context.generic
          [("Now", GoVal.time (sampleEnv.Now 0)), ("Name", GoVal.string "World")], false, none) ∧
    sampleEnv.Execute ("subject", "Hello \x7b\x7b.Name\x7d\x7d")
        (Context.generic
          [("Now", GoVal.time (sampleEnv.Now 0)), ("Name", GoVal.string "World")])
      = Except.ok "Hello World" ∧
    RenderEmail sampleEnv
        { SubjectTemplate := "Hello \x7b\x7b.Name\x7d\x7d", BodyTemplate := "\x7b\x7b",
          Data := RawMessage.value (JVal.obj [("Name", JVal.str "World")]) none }
      = some { BodyError := "template: body:1: unclosed action", BodyLine := 1 } ∧
    (RenderEmail sampleEnv
        { SubjectTemplate := "Hello \x7b\x7b.Name\x7d\x7d", BodyTemplate := "\x7b\x7b",
          Data := RawMessage.value (JVal.obj [("Name", JVal.str "World")]) none }).map
        (fun r => r.SubjectOutput) ≠ some "Hello World" :=
  ⟨rfl, rfl, rfl, rfl, by decide, by decide⟩

mutual
theorem toInterface_of_numbersFit :
    ∀ v : JVal, numbersFit v = true → ∃ g, toInterface v = Except.ok g
  | JVal.null, _ => ⟨_, rfl⟩
  | JVal.bool _, _ => ⟨_, rfl⟩
  | JVal.str _, _ => ⟨_, rfl⟩
  | JVal.num lit, h => by
    simp only [numbersFit] at h
    exact ⟨GoVal.float64 lit, by simp [toInterface, h]⟩
  | JVal.arr xs, h => by
    simp only [numbersFit] at h
    obtain ⟨ys, hys⟩ := toInterfaceList_of_numbersFit xs h
    exact ⟨GoVal.slice ys, by simp [toInterface, hys]⟩
  | JVal.obj kvs, h => by
    simp only [numbersFit] at h
    obtain ⟨m, hm⟩ := toInterfaceMembers_of_numbersFit kvs h []
    exact ⟨GoVal.map m, by simp [toInterface, hm]⟩
theorem toInterfaceList_of_numbersFit :
    ∀ xs : List JVal, numbersFitList xs = true → ∃ ys, toInterfaceList xs = Except.ok ys
  | [], _ => ⟨[], rfl⟩
  | x :: xs, h => by
    simp only [numbersFitList, Bool.and_eq_true] at h
    obtain ⟨y, hy⟩ := toInterface_of_numbersFit x h.1
    obtain ⟨ys, hys⟩ := toInterfaceList_of_numbersFit xs h.2
    exact ⟨y :: ys, by simp [toInterfaceList, hy, hys]⟩
theorem toInterfaceMembers_of_numbersFit :
    ∀ kvs : List (String × JVal), numbersFitMembers kvs = true →
      ∀ m : GoMap, ∃ m1, toInterfaceMembers kvs m = Except.ok m1
  | [], _, m => ⟨m, rfl⟩
  | (k, x) :: kvs, h, m => by
    simp only [numbersFitMembers, Bool.and_eq_true] at h
    obtain ⟨y, hy⟩ := toInterface_of_numbersFit x h.1
    obtain ⟨m1, hm1⟩ := toInterfaceMembers_of_numbersFit kvs h.2 (GoMap.set m k y)
    exact ⟨m1, by simp [toInterfaceMembers, hy, hm1]⟩
end

theorem lookup_set_of_ne (m : GoMap) (k k1 : String) (v : GoVal) (h : k ≠ k1) :
    (GoMap.set m k v).lookup k1 = m.lookup k1 := by
  induction m with
  | nil =>
    have hb : (k1 == k) = false := by simp [Ne.symm h]
    simp [GoMap.set, List.lookup, hb]
  | cons kv rest ih =>
    obtain ⟨k0, v0⟩ := kv
    by_cases h0 : k0 = k
    · subst h0
      have hb : (k1 == k0) = false := by simp [Ne.symm h]
      simp [GoMap.set, List.lookup, hb]
    · have hb : (k0 == k) = false := by simp [h0]
      simp only [GoMap.set, hb, Bool.false_eq_true, if_false, List.lookup]
      rw [ih]

theorem toInterfaceMembers_lookup (kvs : List (String × JVal)) (key : String)
    (hk : ∀ kv ∈ kvs, kv.1 ≠ key) :
    ∀ m m1 : GoMap, toInterfaceMembers kvs m = Except.ok m1 → m1.lookup key = m.lookup key := by
  induction kvs with
  | nil =>
    intro m m1 h
    simp only [toInterfaceMembers, Except.ok.injEq] at h
    rw [h]
  | cons kv rest ih =>
    obtain ⟨k, x⟩ := kv
    intro m m1 h
    have hne : k ≠ key := hk (k, x) (List.mem_cons_self _ _)
    cases hx : toInterface x with
    | error e => simp [toInterfaceMembers, hx] at h
    | ok y =>
      simp only [toInterfaceMembers, hx] at h
      rw [ih (fun kv hkv => hk kv (List.mem_cons_of_mem _ hkv)) _ _ h]
      exact lookup_set_of_ne m k key y hne

theorem lookupField_context_Now (k : String)
    (h : lookupField contextFields k = some ContextField.Now) : equalFold "Now" k = true := by
  unfold lookupField contextFields at h
  by_cases h1 : ("Events" == k) = true
  · simp [List.find?, h1] at h
  · by_cases h2 : ("CompanyID" == k) = true
    · simp [List.find?, h1, h2] at h
    · by_cases h3 : ("CompanyName" == k) = true
      · simp [List.find?, h1, h2, h3] at h
      · by_cases h4 : ("Now" == k) = true
        · have hk : "Now" = k := by simpa using h4
          rw [← hk]
          decide
        · by_cases f1 : equalFold "Events" k = true
          · simp [List.find?, h1, h2, h3, h4, f1] at h
          · by_cases f2 : equalFold "CompanyID" k = true
            · simp [List.find?, h1, h2, h3, h4, f1, f2] at h
            · by_cases f3 : equalFold "CompanyName" k = true
              · simp [List.find?, h1, h2, h3, h4, f1, f2, f3] at h
              · by_cases f4 : equalFold "Now" k = true
                · exact f4
                · simp [List.find?, h1, h2, h3, h4, f1, f2, f3, f4] at h

/-- The strict decode of an object leaves `Now` as it was when no key of the
object matches the field `Now`. -/
theorem decodeContextMembers_Now (parseTime : String → Option Time)
    (kvs : List (String × JVal)) (hk : ∀ kv ∈ kvs, equalFold "Now" kv.1 = false) :
    ∀ ctx c : NotificationContext,
      decodeContextMembers parseTime kvs ctx = some c → c.Now = ctx.Now := by
  induction kvs with
  | nil =>
    intro ctx c h
    simp only [decodeContextMembers, Option.some.injEq] at h
    rw [h]
  | cons kv rest ih =>
    obtain ⟨k, v⟩ := kv
    intro ctx c h
    have hrest : ∀ kv ∈ rest, equalFold "Now" kv.1 = false :=
      fun kv hkv => hk kv (List.mem_cons_of_mem _ hkv)
    have hnot : lookupField contextFields k ≠ some ContextField.Now := by
      intro hl
      have := lookupField_context_Now k hl
      rw [hk (k, v) (List.mem_cons_self _ _)] at this
      exact Bool.noConfusion this
    cases hl : lookupField contextFields k with
    | none => simp [decodeContextMembers, hl] at h
    | some f =>
      cases f with
      | Now => exact absurd hl hnot
      | Events =>
        simp only [decodeContextMembers, hl] at h
        cases hd : decodeEvents v ctx.Events with
        | none => simp [hd] at h
        | some x =>
          simp only [hd, Option.some_bind] at h
          have h2 := ih hrest _ c h
          exact h2
      | CompanyID =>
        simp only [decodeContextMembers, hl] at h
        cases hd : decodeInt v ctx.CompanyID with
        | none => simp [hd] at h
        | some x =>
          simp only [hd, Option.some_bind] at h
          have h2 := ih hrest _ c h
          exact h2
      | CompanyName =>
        simp only [decodeContextMembers, hl] at h
        cases hd : decodeString v ctx.CompanyName with
        | none => simp [hd] at h
        | some x =>
          simp only [hd, Option.some_bind] at h
          have h2 := ih hrest _ c h
          exact h2

theorem buildContext_of_strict {Tmpl : Type} (env : Env Tmpl) (data : RawMessage)
    (c0 : NotificationContext) (h : decodeStrict env.ParseTime data = some c0) :
    buildContext env data
      = some (Context.typed (if c0.Now.IsZero then { c0 with Now := env.Now 0 } else c0),
          true, none) := by
  simp [buildContext, h]

theorem buildContext_of_generic {Tmpl : Type} (env : Env Tmpl) (kvs : List (String × JVal))
    (hs : decodeStrict env.ParseTime (RawMessage.value (JVal.obj kvs) none) = none)
    (m1 : GoMap)
    (hm : toInterfaceMembers kvs [("Now", GoVal.time (env.Now 0))] = Except.ok m1)
    (hnow : m1.lookup "Now" = some (GoVal.time (env.Now 0))) :
    buildContext env (RawMessage.value (JVal.obj kvs) none)
      = some (Context.generic m1, false, none) := by
  have hhas : GoMap.has m1 "Now" = true := by simp [GoMap.has, hnow]
  simp [buildContext, hs, RawMessage.nonEmpty, unmarshalMap, hm, hhas]

/-- C9 (as amended): for a syntactically valid JSON payload with no key that
matches `Now` at its top level, whenever `buildContext` returns without error
the context holds the current instant: in the typed branch the `Now` field is
the reading of the clock, in the generic branch the mapping has a `"Now"`
entry equal to that reading.  It does return without error when the payload
is `null` or an object whose number literals are all in the range of
`float64`. -/
theorem C9_now_supplied_when_context_resolves {Tmpl : Type} (env : Env Tmpl) (v : JVal)
    (hkeys : ∀ kvs, v = JVal.obj kvs → ∀ kv ∈ kvs, equalFold "Now" kv.1 = false) :
    (∀ ctx flag, buildContext env (RawMessage.value v none) = some (ctx, flag, none) →
      (∃ c, ctx = Context.typed c ∧ flag = true ∧ c.Now = env.Now 0) ∨
      (∃ m, ctx = Context.generic m ∧ flag = false ∧
        m.lookup "Now" = some (GoVal.time (env.Now 0)))) ∧
    ((v = JVal.null ∨ ∃ kvs, v = JVal.obj kvs) → numbersFit v = true →
      ∃ ctx flag, buildContext env (RawMessage.value v none) = some (ctx, flag, none)) := by
  have hzero : ∀ c0, decodeStrict env.ParseTime (RawMessage.value v none) = some c0 →
      c0.Now = Time.zero := by
    intro c0 h0
    cases v with
    | null =>
      simp only [decodeStrict, Option.some.injEq] at h0
      rw [← h0]
    | obj kvs =>
      simp only [decodeStrict] at h0
      exact decodeContextMembers_Now env.ParseTime kvs (hkeys kvs rfl) _ _ h0
    | bool b => simp [decodeStrict] at h0
    | num lit => simp [decodeStrict] at h0
    | str x => simp [decodeStrict] at h0
    | arr xs => simp [decodeStrict] at h0
  have hgen : ∀ kvs, v = JVal.obj kvs → ∀ m1,
      toInterfaceMembers kvs [("Now", GoVal.time (env.Now 0))] = Except.ok m1 →
      m1.lookup "Now" = some (GoVal.time (env.Now 0)) := by
    intro kvs hv m1 hm
    have hne : ∀ kv ∈ kvs, kv.1 ≠ "Now" := by
      intro kv hkv heq
      have hf := hkeys kvs hv kv hkv
      rw [heq] at hf
      revert hf
      decide
    rw [toInterfaceMembers_lookup kvs "Now" hne _ _ hm]
    simp [List.lookup]
  refine ⟨?_, ?_⟩
  · intro ctx flag hb
    cases hs : decodeStrict env.ParseTime (RawMessage.value v none) with
    | some c0 =>
      left
      rw [buildContext_of_strict env _ c0 hs] at hb
      have hz := hzero c0 hs
      have hisz : c0.Now.IsZero = true := by rw [hz]; rfl
      simp only [hisz, if_true, Option.some.injEq, Prod.mk.injEq] at hb
      exact ⟨_, hb.1.symm, hb.2.1.symm, rfl⟩
    | none =>
      right
      cases v with
      | null => simp [decodeStrict] at hs
      | bool b => simp [buildContext, hs, RawMessage.nonEmpty, unmarshalMap] at hb
      | num lit => simp [buildContext, hs, RawMessage.nonEmpty, unmarshalMap] at hb
      | str x => simp [buildContext, hs, RawMessage.nonEmpty, unmarshalMap] at hb
      | arr xs => simp [buildContext, hs, RawMessage.nonEmpty, unmarshalMap] at hb
      | obj kvs =>
        cases hm : toInterfaceMembers kvs [("Now", GoVal.time (env.Now 0))] with
        | error e => simp [buildContext, hs, RawMessage.nonEmpty, unmarshalMap, hm] at hb
        | ok m1 =>
          have hnow := hgen kvs rfl m1 hm
          rw [buildContext_of_generic env kvs hs m1 hm hnow] at hb
          simp only [Option.some.injEq, Prod.mk.injEq] at hb
          exact ⟨m1, hb.1.symm, hb.2.1.symm, hnow⟩
  · intro hshape hfit
    cases hs : decodeStrict env.ParseTime (RawMessage.value v none) with
    | some c0 => exact ⟨_, _, buildContext_of_strict env _ c0 hs⟩
    | none =>
      rcases hshape with hv | ⟨kvs, hv⟩
      · subst hv
        simp [decodeStrict] at hs
      · subst hv
        simp only [numbersFit] at hfit
        obtain ⟨m1, hm⟩ := toInterfaceMembers_of_numbersFit kvs hfit
          [("Now", GoVal.time (env.Now 0))]
        exact ⟨_, _, buildContext_of_generic env kvs hs m1 hm (hgen kvs rfl m1 hm)⟩

/-- C9 (as amended) in the example environment: the payload
`{"CompanyName":"Acme"}` resolves to the typed context, whose `Now` is the
reading of the clock, and the payload `{"Name":"World"}` resolves without
error. -/
theorem C9_now_supplied_when_context_resolves_witness :
    buildContext sampleEnv
        (RawMessage.value (JVal.obj [("CompanyName", JVal.str "Acme")]) none)
      = some (Context.typed { CompanyName := "Acme", Now := sampleEnv.Now 0 }, true, none) ∧
    ((∃ c, Context.typed { CompanyName := "Acme", Now := sampleEnv.Now 0 } = Context.typed c ∧
        true = true ∧ c.Now = sampleEnv.Now 0) ∨
      (∃ m, Context.typed { CompanyName := "Acme", Now := sampleEnv.Now 0 } = Context.generic m ∧
        true = false ∧ m.lookup "Now" = some (GoVal.time (sampleEnv.Now 0)))) ∧
    ∃ ctx flag,
      buildContext sampleEnv (RawMessage.value (JVal.obj [("Name", JVal.str "World")]) none)
        = some (ctx, flag, none) :=
  ⟨rfl,
   (C9_now_supplied_when_context_resolves sampleEnv
        (JVal.obj [("CompanyName", JVal.str "Acme")])
        (by
          intro kvs hv kv hkv
          cases hv
          simp only [List.mem_singleton] at hkv
          subst hkv
          decide)).1
      (Context.typed { CompanyName := "Acme", Now := sampleEnv.Now 0 }) true rfl,
   (C9_now_supplied_when_context_resolves sampleEnv
        (JVal.obj [("Name", JVal.str "World")])
        (by
          intro kvs hv kv hkv
          cases hv
          simp only [List.mem_singleton] at hkv
          subst hkv
          decide)).2 (Or.inr ⟨_, rfl⟩) rfl⟩

/-- C9 fails as stated: the payload `[]` is syntactically valid JSON and has no
`Now` key, and `buildContext` returns an error and no context for it.  And
the payload `{"now":"2020-01-01T00:00:00Z"}` has no key `Now`, yet its key
`now` is decoded into the field `Now`: the typed context holds that instant,
not the reading of the clock. -/
theorem C9_valid_array_payload_is_an_error :
    buildContext sampleEnv (RawMessage.value (JVal.arr []) none)
      = some (Context.nil, false,
          some (JsonError.unmarshalType "array" "map[string]interface \x7b\x7d")) ∧
    buildContext sampleEnv
        (RawMessage.value (JVal.obj [("now", JVal.str "2020-01-01T00:00:00Z")]) none)
      = some (Context.typed { Now := ⟨63713433600000000000⟩ }, true, none) ∧
    (⟨63713433600000000000⟩ : Time) ≠ sampleEnv.Now 0 :=
  ⟨rfl, rfl, by decide⟩

/-- A key at the top level of an object payload that matches no field of
`NotificationContext` makes the strict decode fail. -/
theorem decodeContextMembers_unknown_key (parseTime : String → Option Time)
    (kvs : List (String × JVal))
    (h : ∃ kv ∈ kvs, lookupField contextFields kv.1 = none) :
    ∀ ctx : NotificationContext, decodeContextMembers parseTime kvs ctx = none := by
  induction kvs with
  | nil =>
    obtain ⟨kv, hkv, _⟩ := h
    simp at hkv
  | cons kv rest ih =>
    obtain ⟨k, v⟩ := kv
    intro ctx
    cases hl : lookupField contextFields k with
    | none => simp [decodeContextMembers, hl]
    | some f =>
      have hrest : ∃ kv ∈ rest, lookupField contextFields kv.1 = none := by
        obtain ⟨kv, hkv, hnone⟩ := h
        rcases List.mem_cons.mp hkv with heq | hmem
        · subst heq
          rw [hl] at hnone
          exact Option.noConfusion hnone
        · exact ⟨kv, hmem, hnone⟩
      cases f with
      | Events =>
        simp only [decodeContextMembers, hl]
        cases decodeEvents v ctx.Events with
        | none => rfl
        | some x => exact ih hrest _
      | CompanyID =>
        simp only [decodeContextMembers, hl]
        cases decodeInt v ctx.CompanyID with
        | none => rfl
        | some x => exact ih hrest _
      | CompanyName =>
        simp only [decodeContextMembers, hl]
        cases decodeString v ctx.CompanyName with
        | none => rfl
        | some x => exact ih hrest _
      | Now =>
        simp only [decodeContextMembers, hl]
        cases decodeTime parseTime v ctx.Now with
        | none => rfl
        | some x => exact ih hrest _

/-- The strict decode does not look for unknown keys inside an event: for
`{"Events":[{"Bogus":1}]}` it succeeds and `buildContext` returns the typed
context with the flag true. -/
theorem buildContext_unknown_key_inside_event {Tmpl : Type} (env : Env Tmpl) :
    buildContext env
        (RawMessage.value
          (JVal.obj [("Events", JVal.arr [JVal.obj [("Bogus", JVal.num "1")]])]) none)
      = some (Context.typed { Events := [some {}], Now := env.Now 0 }, true, none) := rfl

/-- C4 (as amended): for every JSON object payload with a key at its top level
that matches no field of `NotificationContext`, the strict decode fails and the
generic branch is used: the flag is false, the context is the generic mapping
whenever no error is returned, and nil together with an error; no error is
returned when every number literal of the payload is in the range of
`float64`. -/
theorem C4_unknown_top_level_key_goes_generic {Tmpl : Type} (env : Env Tmpl)
    (kvs : List (String × JVal))
    (hkey : ∃ kv ∈ kvs, lookupField contextFields kv.1 = none) :
    decodeStrict env.ParseTime (RawMessage.value (JVal.obj kvs) none) = none ∧
    (∀ ctx flag err,
      buildContext env (RawMessage.value (JVal.obj kvs) none) = some (ctx, flag, err) →
      flag = false ∧
      (err = none → ∃ m, ctx = Context.generic m) ∧
      (∀ e, err = some e → ctx = Context.nil)) ∧
    (numbersFitMembers kvs = true →
      ∃ m, buildContext env (RawMessage.value (JVal.obj kvs) none)
        = some (Context.generic m, false, none)) := by
  have hs : decodeStrict env.ParseTime (RawMessage.value (JVal.obj kvs) none) = none := by
    simp only [decodeStrict]
    exact decodeContextMembers_unknown_key env.ParseTime kvs hkey _
  refine ⟨hs, ?_, ?_⟩
  · intro ctx flag err hb
    cases hm : toInterfaceMembers kvs [("Now", GoVal.time (env.Now 0))] with
    | error e =>
      simp only [buildContext, hs, RawMessage.nonEmpty, unmarshalMap, hm, if_true,
        Option.some.injEq, Prod.mk.injEq] at hb
      obtain ⟨h1, h2, h3⟩ := hb
      refine ⟨h2.symm, ?_, ?_⟩
      · intro he
        rw [he] at h3
        exact Option.noConfusion h3
      · intro _ _
        exact h1.symm
    | ok m1 =>
      by_cases hhas : GoMap.has m1 "Now" = true
      · simp only [buildContext, hs, RawMessage.nonEmpty, unmarshalMap, hm, if_true, hhas,
          Bool.not_true, Bool.false_eq_true, if_false, Option.some.injEq, Prod.mk.injEq] at hb
        obtain ⟨h1, h2, h3⟩ := hb
        refine ⟨h2.symm, fun _ => ⟨_, h1.symm⟩, ?_⟩
        intro e he
        rw [he] at h3
        exact Option.noConfusion h3
      · have hhas2 : GoMap.has m1 "Now" = false := by simpa using hhas
        simp only [buildContext, hs, RawMessage.nonEmpty, unmarshalMap, hm, if_true, hhas2,
          Bool.not_false, Option.some.injEq, Prod.mk.injEq] at hb
        obtain ⟨h1, h2, h3⟩ := hb
        refine ⟨h2.symm, fun _ => ⟨_, h1.symm⟩, ?_⟩
        intro e he
        rw [he] at h3
        exact Option.noConfusion h3
  · intro hfit
    obtain ⟨m1, hm⟩ := toInterfaceMembers_of_numbersFit kvs hfit [("Now", GoVal.time (env.Now 0))]
    by_cases hhas : GoMap.has m1 "Now" = true
    · exact ⟨m1, by simp [buildContext, hs, RawMessage.nonEmpty, unmarshalMap, hm, hhas]⟩
    · have hhas2 : GoMap.has m1 "Now" = false := by simpa using hhas
      exact ⟨GoMap.set m1 "Now" (GoVal.time (env.Now 1)),
        by simp [buildContext, hs, RawMessage.nonEmpty, unmarshalMap, hm, hhas2]⟩

/-- C4 (as amended) in the example environment, for the payload
`{"Bogus":true}`. -/
theorem C4_unknown_top_level_key_goes_generic_witness :
    decodeStrict sampleEnv.ParseTime
        (RawMessage.value (JVal.obj [("Bogus", JVal.bool true)]) none) = none ∧
    ∃ m, buildContext sampleEnv (RawMessage.value (JVal.obj [("Bogus", JVal.bool true)]) none)
      = some (Context.generic m, false, none) :=
  ⟨(C4_unknown_top_level_key_goes_generic sampleEnv [("Bogus", JVal.bool true)]
      ⟨("Bogus", JVal.bool true), by simp, by decide⟩).1,
   (C4_unknown_top_level_key_goes_generic sampleEnv [("Bogus", JVal.bool true)]
      ⟨("Bogus", JVal.bool true), by simp, by decide⟩).2.2 rfl⟩

set_option exponentiation.threshold 4000 in
/-- C4 fails as stated.  The payload `{"Bogus":1e999}` has a top-level key that
matches no field of `NotificationContext`; the generic decode fails on the
number, and the returned context is nil, with an error, not the generic
mapping.  The payload `{"Events":[{"Bogus":1}]}` has, inside an event, a key
that matches no field of `Event`; the strict decode succeeds and the typed
context is returned with the flag true. -/
theorem C4_unknown_key_payloads_not_generic :
    (lookupField contextFields "Bogus" = none ∧
     buildContext sampleEnv (RawMessage.value (JVal.obj [("Bogus", JVal.num "1e999")]) none)
       = some (Context.nil, false, some (JsonError.unmarshalType "number 1e999" "float64"))) ∧
    (lookupField eventFields "Bogus" = none ∧
     buildContext sampleEnv
        (RawMessage.value
          (JVal.obj [("Events", JVal.arr [JVal.obj [("Bogus", JVal.num "1")]])]) none)
       = some (Context.typed { Events := [some {}], Now := sampleEnv.Now 0 }, true, none)) :=
  ⟨⟨by decide, rfl⟩, ⟨by decide, buildContext_unknown_key_inside_event sampleEnv⟩⟩

/-- The write to a nil map being out of reach, `Render` always returns a
response. -/
theorem Render_ne_none {Tmpl : Type} (env : Env Tmpl) (req : RenderRequest) :
    Render env req ≠ none := by
  unfold Render
  cases env.Parse "template" req.Template with
  | error err => simp
  | ok tmpl =>
    cases hb : buildContext env req.Data with
    | none => exact absurd hb (buildContext_ne_none env req.Data)
    | some r =>
      obtain ⟨ctx, flag, err⟩ := r
      cases err with
      | some e => simp
      | none =>
        dsimp only
        cases he : env.Execute tmpl ctx <;> simp

/-- The write to a nil map being out of reach, `RenderEmail` always returns a
response. -/
theorem RenderEmail_ne_none {Tmpl : Type} (env : Env Tmpl) (req : RenderEmailRequest) :
    RenderEmail env req ≠ none := by
  unfold RenderEmail
  cases env.Parse "subject" req.SubjectTemplate with
  | error err => simp
  | ok st =>
    cases env.Parse "body" req.BodyTemplate with
    | error err => simp
    | ok bt =>
      cases hb : buildContext env req.Data with
      | none => exact absurd hb (buildContext_ne_none env req.Data)
      | some r =>
        obtain ⟨ctx, flag, err⟩ := r
        cases err with
        | some e => simp
        | none =>
          dsimp only
          cases hs : env.Execute st ctx with
          | error e => simp
          | ok o =>
            dsimp only
            cases hbt : env.Execute bt ctx <;> simp

/-! ### EventDetails query surface -/

theorem WithTag_loop_eq (d : EventDetails) (tag : String) (out : EventDetails) :
    EventDetails.WithTag.loop d tag out
      = out ++ d.filter (fun it => EventDetail.tagIs it tag) := by
  induction d generalizing out with
  | nil => simp [EventDetails.WithTag.loop]
  | cons it rest ih =>
    by_cases h : EventDetail.tagIs it tag = true
    · simp [EventDetails.WithTag.loop, h, ih, List.filter_cons]
    · simp [EventDetails.WithTag.loop, h, ih, List.filter_cons]

theorem WithTag_eq_filter (d : EventDetails) (tag : String) :
    EventDetails.WithTag d tag = d.filter (fun it => EventDetail.tagIs it tag) := by
  simp [EventDetails.WithTag, WithTag_loop_eq]

theorem General_loop_eq (d : EventDetails) (out : EventDetails) :
    EventDetails.General.loop d out = EventDetails.WithTag.loop d "" out := by
  induction d generalizing out with
  | nil => rfl
  | cons it rest ih =>
    by_cases h : EventDetail.tagIs it "" = true
    · simp [EventDetails.General.loop, EventDetails.WithTag.loop, h, ih]
    · simp [EventDetails.General.loop, EventDetails.WithTag.loop, h, ih]

theorem tagIs_iff (it : Option EventDetail) (tag : String) :
    EventDetail.tagIs it tag = true ↔ ∃ e, it = some e ∧ e.Tag = tag := by
  cases it with
  | none => simp [EventDetail.tagIs]
  | some e => simp [EventDetail.tagIs]

theorem nameIs_iff (it : Option EventDetail) (name : String) :
    EventDetail.nameIs it name = true ↔ ∃ e, it = some e ∧ e.Name = name := by
  cases it with
  | none => simp [EventDetail.nameIs]
  | some e => simp [EventDetail.nameIs]

/-- C11: `d.WithTag("")` and `d.General()` return the same elements in the same
order, for every list `d`, nil entries included. -/
theorem C11_WithTag_empty_eq_General (d : EventDetails) :
    EventDetails.WithTag d "" = EventDetails.General d := by
  simp [EventDetails.WithTag, EventDetails.General, General_loop_eq]

/-- C12: `d.WithTag(tag)` equals `d` filtered by "not nil and Tag equal to
`tag`": it is a subsequence of `d` in the original order, each of its entries
is a non-nil element with that tag, and every such element of `d` is in it. -/
theorem C12_WithTag_is_the_tagged_subsequence (d : EventDetails) (tag : String) :
    EventDetails.WithTag d tag = d.filter (fun it => EventDetail.tagIs it tag) ∧
    List.Sublist (EventDetails.WithTag d tag) d ∧
    (∀ it ∈ EventDetails.WithTag d tag, ∃ e, it = some e ∧ e.Tag = tag) ∧
    (∀ e : EventDetail, some e ∈ d → e.Tag = tag → some e ∈ EventDetails.WithTag d tag) := by
  rw [WithTag_eq_filter]
  refine ⟨rfl, List.filter_sublist d, ?_, ?_⟩
  · intro it hit
    exact (tagIs_iff it tag).mp (List.mem_filter.mp hit).2
  · intro e he ht
    exact List.mem_filter.mpr ⟨he, (tagIs_iff _ tag).mpr ⟨e, rfl, ht⟩⟩

/-- C12 at a list with a nil entry and two tags: the two entries tagged `t`
are kept, in order. -/
theorem C12_WithTag_is_the_tagged_subsequence_witness :
    EventDetails.WithTag
        [some ⟨"a", "", GoVal.nil, "t"⟩, none, some ⟨"b", "", GoVal.nil, "u"⟩,
         some ⟨"c", "", GoVal.nil, "t"⟩] "t"
      = [some ⟨"a", "", GoVal.nil, "t"⟩, some ⟨"c", "", GoVal.nil, "t"⟩] ∧
    some (⟨"c", "", GoVal.nil, "t"⟩ : EventDetail) ∈
      EventDetails.WithTag
        [some ⟨"a", "", GoVal.nil, "t"⟩, none, some ⟨"b", "", GoVal.nil, "u"⟩,
         some ⟨"c", "", GoVal.nil, "t"⟩] "t" :=
  ⟨rfl,
   (C12_WithTag_is_the_tagged_subsequence
      [some ⟨"a", "", GoVal.nil, "t"⟩, none, some ⟨"b", "", GoVal.nil, "u"⟩,
       some ⟨"c", "", GoVal.nil, "t"⟩] "t").2.2.2 ⟨"c", "", GoVal.nil, "t"⟩ (by simp) rfl⟩

theorem GoSet_add_has (want : GoSet) (n m : String) :
    GoSet.has (GoSet.add want n) m = true ↔ GoSet.has want m = true ∨ m = n := by
  unfold GoSet.add GoSet.has
  by_cases h : want.contains n = true
  · simp only [h, if_true]
    constructor
    · intro hm
      exact Or.inl hm
    · intro hm
      rcases hm with hm | hm
      · exact hm
      · rw [hm]
        exact h
  · simp only [h]
    simp [List.contains, List.elem_eq_mem]

theorem want_has (names : List String) (want : GoSet) (m : String) :
    GoSet.has (EventDetails.WithNames.want names want) m = true
      ↔ GoSet.has want m = true ∨ m ∈ names := by
  induction names generalizing want with
  | nil => simp [EventDetails.WithNames.want]
  | cons n names ih =>
    simp only [EventDetails.WithNames.want, ih, GoSet_add_has, List.mem_cons]
    tauto

theorem want_has_iff_mem (names : List String) (m : String) :
    GoSet.has (EventDetails.WithNames.want names []) m = true ↔ m ∈ names := by
  rw [want_has]
  simp [GoSet.has]

theorem WithNames_loop_eq (d : EventDetails) (want : GoSet) (out : EventDetails) :
    EventDetails.WithNames.loop d want out
      = out ++ d.filter (fun it => match it with
          | some e => GoSet.has want e.Name
          | none => false) := by
  induction d generalizing out with
  | nil => simp [EventDetails.WithNames.loop]
  | cons it rest ih =>
    cases it with
    | none => simp [EventDetails.WithNames.loop, ih, List.filter_cons]
    | some e =>
      by_cases h : GoSet.has want e.Name = true
      · simp [EventDetails.WithNames.loop, h, ih, List.filter_cons]
      · simp [EventDetails.WithNames.loop, h, ih, List.filter_cons]

theorem nameIn_iff (it : Option EventDetail) (names : List String) :
    EventDetail.nameIn it names = true ↔ ∃ e, it = some e ∧ e.Name ∈ names := by
  cases it with
  | none => simp [EventDetail.nameIn]
  | some e => simp [EventDetail.nameIn, List.contains, List.elem_eq_mem]

theorem WithNames_eq_filter (d : EventDetails) (names : List String) :
    EventDetails.WithNames d names = d.filter (fun it => EventDetail.nameIn it names) := by
  unfold EventDetails.WithNames
  rw [WithNames_loop_eq, List.nil_append]
  apply List.filter_congr
  intro it _
  cases it with
  | none => rfl
  | some e =>
    have h1 := want_has_iff_mem names e.Name
    have h2 := nameIn_iff (some e) names
    simp only [Option.some.injEq, exists_eq_left'] at h2
    cases ha : GoSet.has (EventDetails.WithNames.want names []) e.Name <;>
      cases hb : EventDetail.nameIn (some e) names <;> simp_all

/-- C13: `d.WithNames(ns...)` equals `d` filtered by "not nil and Name among
`ns`": it is a subsequence of `d` in the order of `d`, each of its entries is
a non-nil element whose Name occurs in `ns`, every such element of `d` is in
it, and two lists of names with the same members give the same result. -/
theorem C13_WithNames_is_the_named_subsequence (d : EventDetails) (ns : List String) :
    EventDetails.WithNames d ns = d.filter (fun it => EventDetail.nameIn it ns) ∧
    List.Sublist (EventDetails.WithNames d ns) d ∧
    (∀ it ∈ EventDetails.WithNames d ns, ∃ e, it = some e ∧ e.Name ∈ ns) ∧
    (∀ e : EventDetail, some e ∈ d → e.Name ∈ ns → some e ∈ EventDetails.WithNames d ns) ∧
    (∀ ns2 : List String, (∀ n, n ∈ ns ↔ n ∈ ns2) →
      EventDetails.WithNames d ns2 = EventDetails.WithNames d ns) := by
  refine ⟨WithNames_eq_filter d ns, ?_, ?_, ?_, ?_⟩
  · rw [WithNames_eq_filter]
    exact List.filter_sublist d
  · intro it hit
    rw [WithNames_eq_filter] at hit
    exact (nameIn_iff it ns).mp (List.mem_filter.mp hit).2
  · intro e he hn
    rw [WithNames_eq_filter]
    exact List.mem_filter.mpr ⟨he, (nameIn_iff _ ns).mpr ⟨e, rfl, hn⟩⟩
  · intro ns2 hsame
    rw [WithNames_eq_filter, WithNames_eq_filter]
    apply List.filter_congr
    intro it _
    have h1 := nameIn_iff it ns
    have h2 := nameIn_iff it ns2
    have h3 : EventDetail.nameIn it ns2 = true ↔ EventDetail.nameIn it ns = true := by
      rw [h1, h2]
      constructor
      · rintro ⟨e, he, hm⟩
        exact ⟨e, he, (hsame _).mpr hm⟩
      · rintro ⟨e, he, hm⟩
        exact ⟨e, he, (hsame _).mp hm⟩
    cases ha : EventDetail.nameIn it ns2 <;> cases hb : EventDetail.nameIn it ns <;> simp_all

/-- C13 at a list with a nil entry and a repeated Name: both entries named
`a` are kept, in the order of the list, and the names `["b", "a", "a"]` select
the same entries as `["a", "b"]`. -/
theorem C13_WithNames_is_the_named_subsequence_witness :
    EventDetails.WithNames
        [some ⟨"a", "", GoVal.nil, ""⟩, none, some ⟨"c", "", GoVal.nil, ""⟩,
         some ⟨"a", "x", GoVal.nil, ""⟩] ["a", "b"]
      = [some ⟨"a", "", GoVal.nil, ""⟩, some ⟨"a", "x", GoVal.nil, ""⟩] ∧
    EventDetails.WithNames
        [some ⟨"a", "", GoVal.nil, ""⟩, none, some ⟨"c", "", GoVal.nil, ""⟩,
         some ⟨"a", "x", GoVal.nil, ""⟩] ["b", "a", "a"]
      = EventDetails.WithNames
        [some ⟨"a", "", GoVal.nil, ""⟩, none, some ⟨"c", "", GoVal.nil, ""⟩,
         some ⟨"a", "x", GoVal.nil, ""⟩] ["a", "b"] :=
  ⟨rfl,
   (C13_WithNames_is_the_named_subsequence
      [some ⟨"a", "", GoVal.nil, ""⟩, none, some ⟨"c", "", GoVal.nil, ""⟩,
       some ⟨"a", "x", GoVal.nil, ""⟩] ["a", "b"]).2.2.2.2 ["b", "a", "a"]
      (by
        intro n
        simp only [List.mem_cons, List.mem_singleton, List.not_mem_nil, or_false]
        tauto)⟩

theorem Has_iff (d : EventDetails) (name : String) :
    EventDetails.Has d name = true ↔ ∃ e : EventDetail, some e ∈ d ∧ e.Name = name := by
  induction d with
  | nil => simp [EventDetails.Has]
  | cons it rest ih =>
    by_cases h : EventDetail.nameIs it name = true
    · simp only [EventDetails.Has, h, if_true, true_iff]
      obtain ⟨e, he, hn⟩ := (nameIs_iff it name).mp h
      exact ⟨e, by simp [he], hn⟩
    · simp only [EventDetails.Has, h, Bool.false_eq_true, if_false, ih]
      constructor
      · rintro ⟨e, he, hn⟩
        exact ⟨e, List.mem_cons_of_mem _ he, hn⟩
      · rintro ⟨e, he, hn⟩
        rcases List.mem_cons.mp he with he | he
        · exact absurd ((nameIs_iff it name).mpr ⟨e, he.symm, hn⟩) h
        · exact ⟨e, he, hn⟩

theorem HasTag_iff (d : EventDetails) (tag : String) :
    EventDetails.HasTag d tag = true ↔ ∃ e : EventDetail, some e ∈ d ∧ e.Tag = tag := by
  induction d with
  | nil => simp [EventDetails.HasTag]
  | cons it rest ih =>
    by_cases h : EventDetail.tagIs it tag = true
    · simp only [EventDetails.HasTag, h, if_true, true_iff]
      obtain ⟨e, he, hn⟩ := (tagIs_iff it tag).mp h
      exact ⟨e, by simp [he], hn⟩
    · simp only [EventDetails.HasTag, h, Bool.false_eq_true, if_false, ih]
      constructor
      · rintro ⟨e, he, hn⟩
        exact ⟨e, List.mem_cons_of_mem _ he, hn⟩
      · rintro ⟨e, he, hn⟩
        rcases List.mem_cons.mp he with he | he
        · exact absurd ((tagIs_iff it tag).mpr ⟨e, he.symm, hn⟩) h
        · exact ⟨e, he, hn⟩

theorem ne_nil_iff_exists_mem (l : EventDetails) : l ≠ [] ↔ ∃ it, it ∈ l := by
  cases l with
  | nil => simp
  | cons a l => simp

/-- C15: `d.Has(name)` is true exactly when some non-nil element of `d` has
that Name, and `d.HasTag(tag)` exactly when some non-nil element has that Tag;
`Has(name)` holds exactly when `WithNames(name)` is not empty and
`HasTag(tag)` exactly when `WithTag(tag)` is not empty. -/
theorem C15_Has_and_HasTag_are_existence_tests (d : EventDetails) (name tag : String) :
    (EventDetails.Has d name = true ↔ ∃ e : EventDetail, some e ∈ d ∧ e.Name = name) ∧
    (EventDetails.HasTag d tag = true ↔ ∃ e : EventDetail, some e ∈ d ∧ e.Tag = tag) ∧
    (EventDetails.Has d name = true ↔ EventDetails.WithNames d [name] ≠ []) ∧
    (EventDetails.HasTag d tag = true ↔ EventDetails.WithTag d tag ≠ []) := by
  refine ⟨Has_iff d name, HasTag_iff d tag, ?_, ?_⟩
  · rw [Has_iff, ne_nil_iff_exists_mem, WithNames_eq_filter]
    constructor
    · rintro ⟨e, he, hn⟩
      exact ⟨some e, List.mem_filter.mpr ⟨he, (nameIn_iff _ _).mpr ⟨e, rfl, by simp [hn]⟩⟩⟩
    · rintro ⟨it, hit⟩
      obtain ⟨hmem, hin⟩ := List.mem_filter.mp hit
      obtain ⟨e, he, hn⟩ := (nameIn_iff _ _).mp hin
      exact ⟨e, he ▸ hmem, by simpa using hn⟩
  · rw [HasTag_iff, ne_nil_iff_exists_mem, WithTag_eq_filter]
    constructor
    · rintro ⟨e, he, hn⟩
      exact ⟨some e, List.mem_filter.mpr ⟨he, (tagIs_iff _ _).mpr ⟨e, rfl, hn⟩⟩⟩
    · rintro ⟨it, hit⟩
      obtain ⟨hmem, hin⟩ := List.mem_filter.mp hit
      obtain ⟨e, he, hn⟩ := (tagIs_iff _ _).mp hin
      exact ⟨e, he ▸ hmem, hn⟩

/-- C18: `LabelOrName` returns the empty string on a nil detail, the Label
when it is not empty and the Name otherwise; on the placeholder that `Get`
returns for a name no element has, it returns that name. -/
theorem C18_LabelOrName_total :
    EventDetail.LabelOrName none = "" ∧
    (∀ e : EventDetail, e.Label ≠ "" → EventDetail.LabelOrName (some e) = e.Label) ∧
    (∀ e : EventDetail, e.Label = "" → EventDetail.LabelOrName (some e) = e.Name) ∧
    (∀ (d : EventDetails) (name : String), (∀ e : EventDetail, some e ∈ d → e.Name ≠ name) →
      EventDetail.LabelOrName (EventDetails.Get d name) = name) := by
  refine ⟨rfl, ?_, ?_, ?_⟩
  · intro e h
    simp [EventDetail.LabelOrName, h]
  · intro e h
    simp [EventDetail.LabelOrName, h]
  · intro d name h
    rw [Get_of_no_match d name h]
    by_cases hn : name = ""
    · simp [EventDetail.LabelOrName, hn]
    · simp [EventDetail.LabelOrName, hn]

/-- C18 at a detail with a Label, a detail without one, and the placeholder
for the name `missing` in a list that does not have it. -/
theorem C18_LabelOrName_total_witness :
    EventDetail.LabelOrName (some ⟨"cpu", "CPU load", GoVal.nil, ""⟩) = "CPU load" ∧
    EventDetail.LabelOrName (some ⟨"cpu", "", GoVal.nil, ""⟩) = "cpu" ∧
    EventDetail.LabelOrName
        (EventDetails.Get [none, some ⟨"cpu", "", GoVal.nil, ""⟩] "missing") = "missing" :=
  ⟨C18_LabelOrName_total.2.1 ⟨"cpu", "CPU load", GoVal.nil, ""⟩ (by decide),
   C18_LabelOrName_total.2.2.1 ⟨"cpu", "", GoVal.nil, ""⟩ rfl,
   C18_LabelOrName_total.2.2.2 [none, some ⟨"cpu", "", GoVal.nil, ""⟩] "missing"
     (by
       intro e he
       simp at he
       subst he
       decide)⟩

theorem lookup_set_self (m : GoMap) (k : String) (v : GoVal) :
    (GoMap.set m k v).lookup k = some v := by
  induction m with
  | nil => simp [GoMap.set, List.lookup]
  | cons kv rest ih =>
    obtain ⟨k0, v0⟩ := kv
    by_cases h0 : k0 = k
    · subst h0
      simp [GoMap.set, List.lookup]
    · have hb : (k0 == k) = false := by simp [h0]
      have hb2 : (k == k0) = false := by simp [Ne.symm h0]
      simp only [GoMap.set, hb, Bool.false_eq_true, if_false, List.lookup, hb2]
      exact ih

/-- The loop of `ToMap` leaves the entry under `n` as it was when no element
is stored under `n`. -/
theorem ToMap_loop_lookup_of_no_match (d : EventDetails) (n : String)
    (h : ∀ e : EventDetail, some e ∈ d → e.Name ≠ "" → e.Name ≠ n) :
    ∀ out : GoMap, (EventDetails.ToMap.loop d out).lookup n = out.lookup n := by
  induction d with
  | nil =>
    intro out
    rfl
  | cons it rest ih =>
    intro out
    have hrest : ∀ e : EventDetail, some e ∈ rest → e.Name ≠ "" → e.Name ≠ n :=
      fun e he => h e (List.mem_cons_of_mem _ he)
    cases it with
    | none => exact ih hrest out
    | some e =>
      by_cases hn : e.Name = ""
      · simp only [EventDetails.ToMap.loop, hn, beq_self_eq_true, if_true]
        exact ih hrest out
      · have hb : (e.Name == "") = false := by simp [hn]
        simp only [EventDetails.ToMap.loop, hb, Bool.false_eq_true, if_false]
        rw [ih hrest]
        exact lookup_set_of_ne out e.Name n e.Value (h e (List.mem_cons_self _ _) hn)

/-- After the loop of `ToMap` the entry under a non-empty `n` is the Value of
the last element whose Name is `n`. -/
theorem ToMap_loop_lookup_last (d : EventDetails) (n : String) (hn : n ≠ "") :
    ∀ (i : Nat) (e : EventDetail) (out : GoMap), d[i]? = some (some e) → e.Name = n →
      (∀ j, i < j → ∀ e2 : EventDetail, d[j]? = some (some e2) → e2.Name ≠ n) →
      (EventDetails.ToMap.loop d out).lookup n = some e.Value := by
  induction d with
  | nil =>
    intro i e out hi
    simp at hi
  | cons it rest ih =>
    intro i e out hi he hlast
    cases i with
    | zero =>
      simp only [List.getElem?_cons_zero, Option.some.injEq] at hi
      subst hi
      have hb : (e.Name == "") = false := by simp [he, hn]
      simp only [EventDetails.ToMap.loop, hb, Bool.false_eq_true, if_false]
      have hrest : ∀ e2 : EventDetail, some e2 ∈ rest → e2.Name ≠ "" → e2.Name ≠ n := by
        intro e2 he2 _
        obtain ⟨j, hj⟩ := List.getElem?_of_mem he2
        exact hlast (j + 1) (Nat.succ_pos j) e2 (by simpa using hj)
      rw [ToMap_loop_lookup_of_no_match rest n hrest, ← he]
      exact lookup_set_self out e.Name e.Value
    | succ k =>
      have hi2 : rest[k]? = some (some e) := by simpa using hi
      have hlast2 : ∀ j, k < j → ∀ e2 : EventDetail, rest[j]? = some (some e2) → e2.Name ≠ n :=
        fun j hj e2 he2 => hlast (j + 1) (Nat.succ_lt_succ hj) e2 (by simpa using he2)
      cases it with
      | none => exact ih k e out hi2 he hlast2
      | some e0 =>
        by_cases h0 : (e0.Name == "") = true
        · simp only [EventDetails.ToMap.loop, h0, if_true]
          exact ih k e out hi2 he hlast2
        · simp only [EventDetails.ToMap.loop, h0, Bool.false_eq_true, if_false]
          exact ih k e _ hi2 he hlast2

/-- Among the elements whose Name is `n` there is a last one. -/
theorem exists_last_match (d : EventDetails) (n : String)
    (h : ∃ e : EventDetail, some e ∈ d ∧ e.Name = n) :
    ∃ (i : Nat) (e : EventDetail), d[i]? = some (some e) ∧ e.Name = n ∧
      ∀ j, i < j → ∀ e2 : EventDetail, d[j]? = some (some e2) → e2.Name ≠ n := by
  induction d with
  | nil =>
    obtain ⟨e, he, _⟩ := h
    simp at he
  | cons it rest ih =>
    by_cases hr : ∃ e : EventDetail, some e ∈ rest ∧ e.Name = n
    · obtain ⟨i, e, hi, he, hlast⟩ := ih hr
      refine ⟨i + 1, e, by simpa using hi, he, ?_⟩
      intro j hj e2 he2
      cases j with
      | zero => omega
      | succ j2 => exact hlast j2 (by omega) e2 (by simpa using he2)
    · obtain ⟨e, he, hn⟩ := h
      rcases List.mem_cons.mp he with he | he
      · refine ⟨0, e, by simp [he], hn, ?_⟩
        intro j hj e2 he2 hn2
        cases j with
        | zero => omega
        | succ j2 =>
          have hm : some e2 ∈ rest := List.mem_iff_getElem?.mpr ⟨j2, by simpa using he2⟩
          exact hr ⟨e2, hm, hn2⟩
      · exact absurd ⟨e, he, hn⟩ hr

/-- C14: the keys of `d.ToMap()` are exactly the non-empty Names of the
non-nil elements of `d` (the empty string is never a key), and under each such
key the map holds the Value of the last element of `d` with that Name. -/
theorem C14_ToMap_keys_and_last_value (d : EventDetails) :
    (∀ n : String, GoMap.has (EventDetails.ToMap d) n = true
        ↔ n ≠ "" ∧ ∃ e : EventDetail, some e ∈ d ∧ e.Name = n) ∧
    GoMap.has (EventDetails.ToMap d) "" = false ∧
    (∀ (n : String) (i : Nat) (e : EventDetail), n ≠ "" → d[i]? = some (some e) → e.Name = n →
      (∀ j, i < j → ∀ e2 : EventDetail, d[j]? = some (some e2) → e2.Name ≠ n) →
      (EventDetails.ToMap d).lookup n = some e.Value) := by
  have hkeys : ∀ n : String, GoMap.has (EventDetails.ToMap d) n = true
      ↔ n ≠ "" ∧ ∃ e : EventDetail, some e ∈ d ∧ e.Name = n := by
    intro n
    constructor
    · intro hhas
      by_contra hcon
      have hno : ∀ e : EventDetail, some e ∈ d → e.Name ≠ "" → e.Name ≠ n := by
        intro e he hne hen
        apply hcon
        exact ⟨hen ▸ hne, e, he, hen⟩
      have hl := ToMap_loop_lookup_of_no_match d n hno []
      simp [GoMap.has, EventDetails.ToMap, hl, List.lookup] at hhas
    · rintro ⟨hn, hex⟩
      obtain ⟨i, e, hi, he, hlast⟩ := exists_last_match d n hex
      have hl := ToMap_loop_lookup_last d n hn i e [] hi he hlast
      simp [GoMap.has, EventDetails.ToMap, hl]
  refine ⟨hkeys, ?_, ?_⟩
  · cases hh : GoMap.has (EventDetails.ToMap d) "" with
    | false => rfl
    | true => exact absurd rfl ((hkeys "").mp hh).1
  · intro n i e hn hi he hlast
    exact ToMap_loop_lookup_last d n hn i e [] hi he hlast

/-- C14 at a list with a nil entry, an empty Name and a repeated Name: the key
`a` holds the Value of the later of the two elements named `a`. -/
theorem C14_ToMap_keys_and_last_value_witness :
    (EventDetails.ToMap
        [some ⟨"a", "", GoVal.bool true, ""⟩, none, some ⟨"", "", GoVal.nil, ""⟩,
         some ⟨"a", "", GoVal.bool false, ""⟩]).lookup "a" = some (GoVal.bool false) ∧
    EventDetails.ToMap
        [some ⟨"a", "", GoVal.bool true, ""⟩, none, some ⟨"", "", GoVal.nil, ""⟩,
         some ⟨"a", "", GoVal.bool false, ""⟩] = [("a", GoVal.bool false)] :=
  ⟨(C14_ToMap_keys_and_last_value
      [some ⟨"a", "", GoVal.bool true, ""⟩, none, some ⟨"", "", GoVal.nil, ""⟩,
       some ⟨"a", "", GoVal.bool false, ""⟩]).2.2 "a" 3 ⟨"a", "", GoVal.bool false, ""⟩
      (by decide) rfl rfl
      (by
        intro j hj e2 he2
        have h4 : ([some ⟨"a", "", GoVal.bool true, ""⟩, none, some ⟨"", "", GoVal.nil, ""⟩,
            some ⟨"a", "", GoVal.bool false, ""⟩] : EventDetails)[j]? = none := by
          apply List.getElem?_eq_none
          simp only [List.length_cons, List.length_nil]
          omega
        rw [h4] at he2
        exact Option.noConfusion he2),
   rfl⟩

/-- When `Has` holds there is a first element with that Name. -/
theorem Has_first_match (d : EventDetails) (name : String) (h : EventDetails.Has d name = true) :
    ∃ (i : Nat) (e : EventDetail), d[i]? = some (some e) ∧ e.Name = name ∧
      ∀ j, j < i → ∀ e2 : EventDetail, d[j]? = some (some e2) → e2.Name ≠ name := by
  induction d with
  | nil => simp [EventDetails.Has] at h
  | cons it rest ih =>
    by_cases hit : EventDetail.nameIs it name = true
    · obtain ⟨e, he, hn⟩ := (nameIs_iff it name).mp hit
      refine ⟨0, e, by simp [he], hn, ?_⟩
      intro j hj
      omega
    · simp only [EventDetails.Has, hit, Bool.false_eq_true, if_false] at h
      obtain ⟨i, e, hi, he, hfirst⟩ := ih h
      refine ⟨i + 1, e, by simpa using hi, he, ?_⟩
      intro j hj e2 he2 hn2
      cases j with
      | zero =>
        simp only [List.getElem?_cons_zero, Option.some.injEq] at he2
        exact hit ((nameIs_iff it name).mpr ⟨e2, he2, hn2⟩)
      | succ j2 => exact hfirst j2 (by omega) e2 (by simpa using he2) hn2

/-- C19: in a list where no two non-nil elements share a Name, for every
non-empty name that `Has` finds, `ToMap` holds under that name the value that
`GetValue` returns.  Without the uniqueness they can differ: `ToMap` keeps the
last of two elements with one Name, `GetValue` returns the first. -/
theorem C19_ToMap_agrees_with_GetValue_on_unique_names :
    (∀ (d : EventDetails) (name : String),
      (∀ (i j : Nat) (e e2 : EventDetail), d[i]? = some (some e) → d[j]? = some (some e2) →
        e.Name = e2.Name → i = j) →
      name ≠ "" → EventDetails.Has d name = true →
      ∃ v, (EventDetails.ToMap d).lookup name = some v ∧
        EventDetails.GetValue d name = some v) ∧
    ((EventDetails.ToMap
        [some ⟨"a", "", GoVal.bool true, ""⟩, some ⟨"a", "", GoVal.bool false, ""⟩]).lookup "a"
        = some (GoVal.bool false) ∧
      EventDetails.GetValue
        [some ⟨"a", "", GoVal.bool true, ""⟩, some ⟨"a", "", GoVal.bool false, ""⟩] "a"
        = some (GoVal.bool true)) := by
  refine ⟨?_, rfl, rfl⟩
  intro d name huniq hn hhas
  obtain ⟨i, e, hi, he, hfirst⟩ := Has_first_match d name hhas
  have hlast : ∀ j, i < j → ∀ e2 : EventDetail, d[j]? = some (some e2) → e2.Name ≠ name := by
    intro j hj e2 he2 hn2
    have := huniq i j e e2 hi he2 (he.trans hn2.symm)
    omega
  refine ⟨e.Value, ToMap_loop_lookup_last d name hn i e [] hi he hlast, ?_⟩
  simp [EventDetails.GetValue, Get_of_first_match d name i e hi he hfirst]

/-- C19 at a list of two elements with different Names and a nil entry. -/
theorem C19_ToMap_agrees_with_GetValue_on_unique_names_witness :
    ∃ v, (EventDetails.ToMap
        [some ⟨"a", "", GoVal.bool true, ""⟩, none, some ⟨"b", "", GoVal.nil, ""⟩]).lookup "b"
        = some v ∧
      EventDetails.GetValue
        [some ⟨"a", "", GoVal.bool true, ""⟩, none, some ⟨"b", "", GoVal.nil, ""⟩] "b"
        = some v :=
  C19_ToMap_agrees_with_GetValue_on_unique_names.1
    [some ⟨"a", "", GoVal.bool true, ""⟩, none, some ⟨"b", "", GoVal.nil, ""⟩] "b"
    (by
      intro i j e e2 hi hj hn
      match i, j with
      | 0, 0 => rfl
      | 1, _ => simp at hi
      | _, 1 => simp at hj
      | 2, 2 => rfl
      | 0, 2 =>
        simp only [List.getElem?_cons_zero, List.getElem?_cons_succ, Option.some.injEq] at hi hj
        subst hi
        subst hj
        exact absurd hn (by decide)
      | 2, 0 =>
        simp only [List.getElem?_cons_zero, List.getElem?_cons_succ, Option.some.injEq] at hi hj
        subst hi
        subst hj
        exact absurd hn (by decide)
      | i + 3, _ => simp at hi
      | _, j + 3 => simp at hj)
    (by decide) rfl

/-! ### Messages without a position, and the remaining orchestrator claims -/

theorem eq_append_of_dropLit (l s r : List Char) (h : dropLit l s = some r) : s = l ++ r := by
  induction l generalizing s with
  | nil =>
    cases s <;> simp [dropLit] at h <;> simp [h]
  | cons a l ih =>
    cases s with
    | nil => simp [dropLit] at h
    | cons c cs =>
      by_cases hac : a = c
      · subst hac
        simp only [dropLit, beq_self_eq_true, if_true] at h
        rw [ih cs h]
        rfl
      · have hb : (a == c) = false := by simp [hac]
        simp [dropLit, hb] at h

/-- The scan `occursIn` finds nothing exactly when the text is not a
substring. -/
theorem not_substring_of_occursIn (l s : List Char) (h : occursIn l s = false) :
    ¬ ∃ pre post : List Char, s = pre ++ (l ++ post) := by
  induction s with
  | nil =>
    rintro ⟨pre, post, hs⟩
    have hl : l = [] := by
      cases pre with
      | nil =>
        cases l with
        | nil => rfl
        | cons a l2 => simp at hs
      | cons a pre2 => simp at hs
    subst hl
    simp [occursIn, dropLit] at h
  | cons c cs ih =>
    simp only [occursIn, Bool.or_eq_false_iff] at h
    rintro ⟨pre, post, hs⟩
    cases pre with
    | nil =>
      have hd : dropLit l (c :: cs) = some post := by
        rw [hs, List.nil_append]
        exact dropLit_append l post
      rw [hd] at h
      simp at h
    | cons a pre2 =>
      simp only [List.cons_append, List.cons.injEq] at hs
      exact ih h.2 ⟨pre2, post, hs.2⟩

theorem find_none_of_no_match (re : Regex) (s : List Char)
    (h : ∀ pre t : List Char, s = pre ++ t → Regex.matchHere re t = none) :
    Regex.find re s = none := by
  induction s with
  | nil => simpa [Regex.find] using h [] [] rfl
  | cons c cs ih =>
    have h0 := h [] (c :: cs) rfl
    simp only [Regex.find, h0]
    exact ih (fun pre t hs => h (c :: pre) t (by simp [hs]))

theorem matchHere_none_of_no_marker (t : List Char)
    (h : dropLit "template:".toList t = none) : Regex.matchHere linePattern t = none := by
  rw [matchHere_linePattern]
  unfold lineForm
  rw [h]
  rfl

/-- C16: for a message that does not contain the substring `template:`,
`extractLineColumn` returns `(0, 0)` and `renderErr` returns the message
unchanged as Error, with Line 0 and Column absent. -/
theorem C16_no_marker_no_position (msg : String)
    (h : ¬ ∃ pre post : List Char, msg.toList = pre ++ ("template:".toList ++ post)) :
    extractLineColumn msg = (0, 0) ∧
    renderErr msg = { Output := "", Error := msg, Line := 0, Column := none } := by
  have hfind : Regex.find linePattern msg.toList = none := by
    apply find_none_of_no_match
    intro pre t hs
    apply matchHere_none_of_no_marker
    cases hd : dropLit "template:".toList t with
    | none => rfl
    | some r =>
      exfalso
      apply h
      refine ⟨pre, r, ?_⟩
      rw [hs, eq_append_of_dropLit _ _ _ hd]
  have hfss : Regex.FindStringSubmatch linePattern 2 msg = [] := by
    unfold Regex.FindStringSubmatch
    rw [hfind]
  have he := extractLineColumn_of_no_submatch msg hfss
  exact ⟨he, by simp [renderErr, he]⟩

/-- C16 at the message of a data error, which has no `template:` in it. -/
theorem C16_no_marker_no_position_witness :
    extractLineColumn "unexpected end of JSON input" = (0, 0) ∧
    renderErr "unexpected end of JSON input"
      = { Output := "", Error := "unexpected end of JSON input", Line := 0, Column := none } :=
  C16_no_marker_no_position "unexpected end of JSON input"
    (not_substring_of_occursIn "template:".toList "unexpected end of JSON input".toList
      (by decide))

/-- C17: when the template text fails to compile with message `m`, `Render`
returns `renderErr(m)`, whose Error is `m` and whose Output is empty, whatever
the data payload is: any two payloads give the same response. -/
theorem C17_parse_error_ignores_data {Tmpl : Type} (env : Env Tmpl) (text m : String)
    (h : env.Parse "template" text = Except.error m) :
    (∀ data : RawMessage, Render env { Template := text, Data := data } = some (renderErr m)) ∧
    (renderErr m).Error = m ∧ (renderErr m).Output = "" ∧
    (renderErr m).Line = (extractLineColumn m).1 ∧
    (∀ d1 d2 : RawMessage,
      Render env { Template := text, Data := d1 } = Render env { Template := text, Data := d2 }) := by
  have hr : ∀ data : RawMessage,
      Render env { Template := text, Data := data } = some (renderErr m) := by
    intro data
    simp [Render, h]
  refine ⟨hr, rfl, rfl, rfl, ?_⟩
  intro d1 d2
  rw [hr d1, hr d2]

/-- C17 in the example environment: the template `{{` does not compile, and a
valid payload and one that is not JSON give the same response. -/
theorem C17_parse_error_ignores_data_witness :
    Render sampleEnv
        { Template := "\x7b\x7b",
          Data := RawMessage.value (JVal.obj [("Name", JVal.str "World")]) none }
      = some (renderErr "template: template:1: unclosed action") ∧
    Render sampleEnv
        { Template := "\x7b\x7b",
          Data := RawMessage.value (JVal.obj [("Name", JVal.str "World")]) none }
      = Render sampleEnv
        { Template := "\x7b\x7b", Data := RawMessage.invalid "unexpected end of JSON input" } :=
  ⟨(C17_parse_error_ignores_data sampleEnv "\x7b\x7b"
      "template: template:1: unclosed action" rfl).1 _,
   (C17_parse_error_ignores_data sampleEnv "\x7b\x7b"
      "template: template:1: unclosed action" rfl).2.2.2.2 _ _⟩

/-- C20: in a response of `RenderEmail`, SubjectError and BodyError are both
non-empty only when both templates compiled and `buildContext` failed, and
then both are the same `Data parse error: ...` message; whenever either error
is non-empty both outputs are empty; and an output is non-empty only when both
templates compiled, the context resolved and both executions succeeded, with
both errors empty. -/
theorem C20_errors_and_outputs_exclude_each_other {Tmpl : Type} (env : Env Tmpl)
    (req : RenderEmailRequest) (resp : RenderEmailResponse)
    (h : RenderEmail env req = some resp) :
    (resp.SubjectError ≠ "" → resp.BodyError ≠ "" →
      ∃ st bt ctx flag e,
        env.Parse "subject" req.SubjectTemplate = Except.ok st ∧
        env.Parse "body" req.BodyTemplate = Except.ok bt ∧
        buildContext env req.Data = some (ctx, flag, some e) ∧
        resp.SubjectError = "Data parse error: " ++ e.Error ∧
        resp.BodyError = "Data parse error: " ++ e.Error) ∧
    ((resp.SubjectError ≠ "" ∨ resp.BodyError ≠ "") →
      resp.SubjectOutput = "" ∧ resp.BodyOutput = "") ∧
    ((resp.SubjectOutput ≠ "" ∨ resp.BodyOutput ≠ "") →
      ∃ st bt ctx flag,
        env.Parse "subject" req.SubjectTemplate = Except.ok st ∧
        env.Parse "body" req.BodyTemplate = Except.ok bt ∧
        buildContext env req.Data = some (ctx, flag, none) ∧
        env.Execute st ctx = Except.ok resp.SubjectOutput ∧
        env.Execute bt ctx = Except.ok resp.BodyOutput ∧
        resp.SubjectError = "" ∧ resp.BodyError = "") := by
  unfold RenderEmail at h
  cases hps : env.Parse "subject" req.SubjectTemplate with
  | error err =>
    simp only [hps, Option.some.injEq] at h
    subst h
    simp
  | ok st =>
    cases hpb : env.Parse "body" req.BodyTemplate with
    | error err =>
      simp only [hps, hpb, Option.some.injEq] at h
      subst h
      simp
    | ok bt =>
      cases hb : buildContext env req.Data with
      | none => simp [hps, hpb, hb] at h
      | some r =>
        obtain ⟨ctx, flag, err⟩ := r
        cases err with
        | some e =>
          simp only [hps, hpb, hb, Option.some.injEq] at h
          subst h
          refine ⟨fun _ _ => ⟨st, bt, ctx, flag, e, rfl, rfl, rfl, rfl, rfl⟩, ?_, ?_⟩
          · intro _
            exact ⟨rfl, rfl⟩
          · intro ho
            simp at ho
        | none =>
          cases hes : env.Execute st ctx with
          | error m =>
            simp only [hps, hpb, hb, hes, Option.some.injEq] at h
            subst h
            simp
          | ok so =>
            cases heb : env.Execute bt ctx with
            | error m =>
              simp only [hps, hpb, hb, hes, heb, Option.some.injEq] at h
              subst h
              simp
            | ok bo =>
              simp only [hps, hpb, hb, hes, heb, Option.some.injEq] at h
              subst h
              refine ⟨?_, ?_, ?_⟩
              · intro h1
                exact absurd rfl h1
              · intro h1
                rcases h1 with h1 | h1 <;> exact absurd rfl h1
              · intro _
                exact ⟨st, bt, ctx, flag, rfl, rfl, rfl, hes, heb, rfl, rfl⟩

/-- C20 in the example environment, for two templates that compile and a
payload that is not JSON: both errors are non-empty, they are the same data
parse message, and both outputs are empty. -/
theorem C20_errors_and_outputs_exclude_each_other_witness :
    RenderEmail sampleEnv
        { SubjectTemplate := "Hello", BodyTemplate := "World",
          Data := RawMessage.invalid "unexpected end of JSON input" }
      = some { SubjectError := "Data parse error: unexpected end of JSON input",
               BodyError := "Data parse error: unexpected end of JSON input" } ∧
    (∃ st bt ctx flag e,
      sampleEnv.Parse "subject" "Hello" = Except.ok st ∧
      sampleEnv.Parse "body" "World" = Except.ok bt ∧
      buildContext sampleEnv (RawMessage.invalid "unexpected end of JSON input")
        = some (ctx, flag, some e) ∧
      "Data parse error: unexpected end of JSON input" = "Data parse error: " ++ e.Error ∧
      "Data parse error: unexpected end of JSON input" = "Data parse error: " ++ e.Error) ∧
    (("" : String) = "" ∧ ("" : String) = "") :=
  ⟨by decide,
   (C20_errors_and_outputs_exclude_each_other sampleEnv
      { SubjectTemplate := "Hello", BodyTemplate := "World",
        Data := RawMessage.invalid "unexpected end of JSON input" }
      { SubjectError := "Data parse error: unexpected end of JSON input",
        BodyError := "Data parse error: unexpected end of JSON input" }
      (by decide)).1 (by decide) (by decide),
   (C20_errors_and_outputs_exclude_each_other sampleEnv
      { SubjectTemplate := "Hello", BodyTemplate := "World",
        Data := RawMessage.invalid "unexpected end of JSON input" }
      { SubjectError := "Data parse error: unexpected end of JSON input",
        BodyError := "Data parse error: unexpected end of JSON input" }
      (by decide)).2.1 (Or.inl (by decide))⟩

end Renderer
